import Mathlib

/-!
# Verification of the Excel-Translator translation core

Shallow embedding of the repository's translation orchestration core:
the content classifier (`is_chinese`), the fingerprint cache
(`get_cache_key` = MD5, `load_cache`/`save_cache`), the batch translator
with retry/backoff (`ExcelTranslator.translate_cells_batch`,
`batch_translate_texts_async`), the OpenAI provider
(`OpenAIProvider.translate_single`/`translate_batch`), the formula-literal
extractor and rewriter, and the per-run checkpoint/interrupt behaviour of
`ExcelTranslator.translate_file`.
-/

namespace ExcelTranslator

/-- Model of a spreadsheet cell value as surfaced by openpyxl:
a string, a number, a boolean, or `None` (empty cell). -/
inductive CellValue where
  | vStr (s : String)
  | vNum (n : Int)
  | vBool (b : Bool)
  | vNone
deriving DecidableEq, Repr

/-- The character class of the compiled pattern in `utils.is_chinese`
(`src/excel_translator/utils.py` line 34), exactly as Python's `re` engine
parses the raw pattern
`[一-鿿㐀-䶿 0-⩭F⩰0-⭳F⭴0-⮁F⮂0-⳪F⼀-⿟　-〿]`.
Python's `\uXXXX` escape consumes exactly four hex digits, so the
five-digit-looking items split: ` 0-⩭F` is the single char U+2000,
the range `'0'`(U+0030)`-`U+2A6D, and the literal `F`; likewise for the
C/D/E "extended" items.  The class items, in pattern order, are therefore:
U+4E00-U+9FFF, U+3400-U+4DBF, {U+2000}, U+0030-U+2A6D, {'F'},
{U+2A70}, U+0030-U+2B73, {'F'}, {U+2B74}, U+0030-U+2B81, {'F'},
{U+2B82}, U+0030-U+2CEA, U+2F00-U+2FDF, U+3000-U+303F. -/
def chinesePatternMatch (c : Char) : Bool :=
  let n := c.toNat
  (0x4E00 ≤ n && n ≤ 0x9FFF) ||
  (0x3400 ≤ n && n ≤ 0x4DBF) ||
  (n == 0x2000) ||
  (0x30 ≤ n && n ≤ 0x2A6D) ||
  (n == 0x46) ||
  (n == 0x2A70) ||
  (0x30 ≤ n && n ≤ 0x2B73) ||
  (n == 0x46) ||
  (n == 0x2B74) ||
  (0x30 ≤ n && n ≤ 0x2B81) ||
  (n == 0x46) ||
  (n == 0x2B82) ||
  (0x30 ≤ n && n ≤ 0x2CEA) ||
  (0x2F00 ≤ n && n ≤ 0x2FDF) ||
  (0x3000 ≤ n && n ≤ 0x303F)

/-- `utils.is_chinese` applied to a Python `str`: `re.search` of the
pattern, i.e. true iff some character of the string is in the class. -/
def is_chinese_str (s : String) : Bool :=
  s.toList.any chinesePatternMatch

/-- `utils.is_chinese` (`src/excel_translator/utils.py` lines 13-35) on an
arbitrary cell value: the `isinstance(text, str)` guard returns `False` for
every non-string, then the pattern search runs on the string. -/
def is_chinese (v : CellValue) : Bool :=
  match v with
  | .vStr s => is_chinese_str s
  | _ => false

/-- Characters stripped by Python's `str.strip()` with no argument: all
code points with the Unicode whitespace property as implemented by CPython
(`Py_UNICODE_ISSPACE`). -/
def pyIsSpace (c : Char) : Bool :=
  let n := c.toNat
  (0x09 ≤ n && n ≤ 0x0D) || (0x1C ≤ n && n ≤ 0x1F) ||
  n == 0x20 || n == 0x85 || n == 0xA0 || n == 0x1680 ||
  (0x2000 ≤ n && n ≤ 0x200A) ||
  n == 0x2028 || n == 0x2029 || n == 0x202F || n == 0x205F || n == 0x3000

/-- Python's `not text.strip()` test: true iff every character of the
string is whitespace (in particular for the empty string). -/
def is_blank (s : String) : Bool :=
  s.toList.all pyIsSpace

/-- Python's `str.strip()`: drop leading and trailing whitespace. -/
def pyStrip (s : String) : String :=
  ((s.toList.dropWhile pyIsSpace).reverse.dropWhile pyIsSpace).reverse.asString

/-! ## Python `dict` model

The translation cache and every `results` dictionary in the source are
Python `dict`s keyed by strings.  We model them as association lists in
insertion order: assignment to an existing key updates it in place,
assignment to a fresh key appends. -/

/-- Insertion-ordered string dictionary (Python `dict[str, str]`). -/
abbrev StrDict := List (String × String)

/-- Python `d[k] = v`: replace in place when the key exists, else append. -/
def dictInsert (m : StrDict) (k v : String) : StrDict :=
  match m with
  | [] => [(k, v)]
  | (k', v') :: rest =>
      if k' = k then (k, v) :: rest else (k', v') :: dictInsert rest k v

/-- Python `d[k]` / `d.get(k)`: first (= unique) binding of `k`. -/
def dictLookup (m : StrDict) (k : String) : Option String :=
  match m with
  | [] => none
  | (k', v') :: rest => if k' = k then some v' else dictLookup rest k

/-- Python `k in d`. -/
def dictMem (m : StrDict) (k : String) : Bool :=
  (dictLookup m k).isSome

theorem dictLookup_insert_self (m : StrDict) (k v : String) :
    dictLookup (dictInsert m k v) k = some v := by
  induction m with
  | nil => simp [dictInsert, dictLookup]
  | cons p rest ih =>
      obtain ⟨k', v'⟩ := p
      by_cases h : k' = k <;> simp [dictInsert, dictLookup, h, ih]

theorem dictLookup_insert_ne (m : StrDict) (k k' v : String) (h : k ≠ k') :
    dictLookup (dictInsert m k v) k' = dictLookup m k' := by
  induction m with
  | nil => simp [dictInsert, dictLookup, h]
  | cons p rest ih =>
      obtain ⟨k₀, v₀⟩ := p
      by_cases h₀ : k₀ = k
      · subst h₀; simp [dictInsert, dictLookup, h]
      · simp [dictInsert, dictLookup, h₀, ih]

/-! ## Formula-literal extraction and rewriting

`translate_file` (`src/excel_translator/translation.py` lines 280-299)
extracts every double-quote-delimited literal from a formula with
`re.compile(r'"([^"]*)"').findall(...)` and rewrites the formula with
Python's `str.replace` (replace-all). -/

/-- One left-to-right scan implementing `findall` of the non-greedy quoted
pattern: outside quotes, skip until a `"`; inside quotes, accumulate until
the closing `"`; an unterminated trailing quote yields no further match. -/
def quotedScan : List Char → Option (List Char) → List (List Char)
  | [], _ => []
  | c :: rest, none =>
      if c = '"' then quotedScan rest (some []) else quotedScan rest none
  | c :: rest, some acc =>
      if c = '"' then acc.reverse :: quotedScan rest none
      else quotedScan rest (some (c :: acc))

/-- `string_pattern.findall(formula)`: every double-quote-delimited
literal substring, left to right. -/
def extract_formula_strings (s : String) : List String :=
  (quotedScan s.toList none).map List.asString

/-- Python `s.replace(pat, rep)` for a non-empty pattern: replace every
non-overlapping occurrence, scanning left to right.  `fuel` bounds the
recursion; every step consumes at least one character, so `fuel = s.length`
is always enough. -/
def replaceAllGo (pat rep : List Char) : Nat → List Char → List Char
  | _, [] => []
  | 0, s => s
  | fuel + 1, c :: rest =>
      if pat.isPrefixOf (c :: rest) then
        rep ++ replaceAllGo pat rep fuel ((c :: rest).drop pat.length)
      else
        c :: replaceAllGo pat rep fuel rest

/-- Python `s.replace(pat, rep)` (our patterns `'"' + string + '"'` are
never empty). -/
def pyReplace (s pat rep : String) : String :=
  (replaceAllGo pat.toList rep.toList s.toList.length s.toList).asString

/-- The formula-rewrite loop (`translation.py` lines 294-299): for each
qualifying literal, if the translations dict holds a different text,
replace every occurrence of the quoted literal. -/
def rewrite_formula (translations : StrDict) (chinese_strings : List String)
    (formula : String) : String :=
  chinese_strings.foldl
    (fun f s =>
      match dictLookup translations s with
      | some t => if t ≠ s then pyReplace f ("\"" ++ s ++ "\"") ("\"" ++ t ++ "\"") else f
      | none => f)
    formula

/-! ## Fingerprinting: `utils.get_cache_key`

`get_cache_key(text)` is `hashlib.md5(text.encode('utf-8')).hexdigest()`
(`src/excel_translator/utils.py` lines 38-47).  We embed UTF-8 encoding
and the full MD5 algorithm (RFC 1321) over `Nat` with explicit `% 2^32`. -/

/-- UTF-8 encoding of one Unicode scalar value, as `str.encode('utf-8')`. -/
def utf8EncodeChar (c : Char) : List Nat :=
  let n := c.toNat
  if n < 0x80 then [n]
  else if n < 0x800 then [0xC0 + n / 64, 0x80 + n % 64]
  else if n < 0x10000 then [0xE0 + n / 4096, 0x80 + (n / 64) % 64, 0x80 + n % 64]
  else [0xF0 + n / 262144, 0x80 + (n / 4096) % 64, 0x80 + (n / 64) % 64, 0x80 + n % 64]

/-- `text.encode('utf-8')` as a byte (0-255) list. -/
def utf8Bytes (s : String) : List Nat :=
  (s.toList.map utf8EncodeChar).foldr (· ++ ·) []

/-- Truncation to a 32-bit word. -/
def w32 (n : Nat) : Nat := n % 4294967296

/-- 32-bit left rotation (operand assumed `< 2^32`). -/
def lrot32 (x s : Nat) : Nat := w32 (x <<< s) + (x >>> (32 - s))

/-- 32-bit bitwise complement. -/
def not32 (x : Nat) : Nat := x ^^^ 0xFFFFFFFF

/-- MD5 sine-derived constant table `K` (RFC 1321). -/
def md5K : List Nat :=
  [0xd76aa478, 0xe8c7b756, 0x242070db, 0xc1bdceee,
   0xf57c0faf, 0x4787c62a, 0xa8304613, 0xfd469501,
   0x698098d8, 0x8b44f7af, 0xffff5bb1, 0x895cd7be,
   0x6b901122, 0xfd987193, 0xa679438e, 0x49b40821,
   0xf61e2562, 0xc040b340, 0x265e5a51, 0xe9b6c7aa,
   0xd62f105d, 0x02441453, 0xd8a1e681, 0xe7d3fbc8,
   0x21e1cde6, 0xc33707d6, 0xf4d50d87, 0x455a14ed,
   0xa9e3e905, 0xfcefa3f8, 0x676f02d9, 0x8d2a4c8a,
   0xfffa3942, 0x8771f681, 0x6d9d6122, 0xfde5380c,
   0xa4beea44, 0x4bdecfa9, 0xf6bb4b60, 0xbebfbc70,
   0x289b7ec6, 0xeaa127fa, 0xd4ef3085, 0x04881d05,
   0xd9d4d039, 0xe6db99e5, 0x1fa27cf8, 0xc4ac5665,
   0xf4292244, 0x432aff97, 0xab9423a7, 0xfc93a039,
   0x655b59c3, 0x8f0ccc92, 0xffeff47d, 0x85845dd1,
   0x6fa87e4f, 0xfe2ce6e0, 0xa3014314, 0x4e0811a1,
   0xf7537e82, 0xbd3af235, 0x2ad7d2bb, 0xeb86d391]

/-- MD5 per-round left-rotation amounts. -/
def md5S : List Nat :=
  [7, 12, 17, 22, 7, 12, 17, 22, 7, 12, 17, 22, 7, 12, 17, 22,
   5, 9, 14, 20, 5, 9, 14, 20, 5, 9, 14, 20, 5, 9, 14, 20,
   4, 11, 16, 23, 4, 11, 16, 23, 4, 11, 16, 23, 4, 11, 16, 23,
   6, 10, 15, 21, 6, 10, 15, 21, 6, 10, 15, 21, 6, 10, 15, 21]

/-- MD5 nonlinear functions F/G/H/I selected by round index. -/
def md5F (i b c d : Nat) : Nat :=
  if i < 16 then (b &&& c) ||| (not32 b &&& d)
  else if i < 32 then (d &&& b) ||| (not32 d &&& c)
  else if i < 48 then b ^^^ c ^^^ d
  else c ^^^ (b ||| not32 d)

/-- MD5 message-word index schedule. -/
def md5G (i : Nat) : Nat :=
  if i < 16 then i
  else if i < 32 then (5 * i + 1) % 16
  else if i < 48 then (3 * i + 5) % 16
  else (7 * i) % 16

/-- Little-endian 32-bit word `g` of a 64-byte block. -/
def blockWord (block : List Nat) (g : Nat) : Nat :=
  block.getD (4 * g) 0 + 256 * block.getD (4 * g + 1) 0 +
    65536 * block.getD (4 * g + 2) 0 + 16777216 * block.getD (4 * g + 3) 0

/-- One MD5 round. -/
def md5Round (block : List Nat) (st : Nat × Nat × Nat × Nat) (i : Nat) :
    Nat × Nat × Nat × Nat :=
  let (a, b, c, d) := st
  let f := w32 (md5F i b c d + a + md5K.getD i 0 + blockWord block (md5G i))
  (d, w32 (b + lrot32 f (md5S.getD i 0)), b, c)

/-- Process one 64-byte block: 64 rounds, then add into the running state. -/
def md5Block (st : Nat × Nat × Nat × Nat) (block : List Nat) :
    Nat × Nat × Nat × Nat :=
  let (a0, b0, c0, d0) := st
  let (a, b, c, d) := (List.range 64).foldl (md5Round block) (a0, b0, c0, d0)
  (w32 (a0 + a), w32 (b0 + b), w32 (c0 + c), w32 (d0 + d))

/-- MD5 padding: `0x80`, zeros to 56 mod 64, 8-byte little-endian bit
length. -/
def md5Pad (msg : List Nat) : List Nat :=
  let len := msg.length
  let bitLen := (8 * len) % (2 ^ 64)
  msg ++ [0x80] ++ List.replicate ((119 - len % 64) % 64) 0 ++
    (List.range 8).map (fun i => (bitLen >>> (8 * i)) % 256)

/-- Split a byte list into 64-byte blocks (`fuel` bounds the recursion;
every step consumes 64 bytes, so `fuel = length` is always enough). -/
def toBlocks : Nat → List Nat → List (List Nat)
  | _, [] => []
  | 0, _ => []
  | fuel + 1, l => l.take 64 :: toBlocks fuel (l.drop 64)

/-- Lowercase hex digit. -/
def hexDigit (n : Nat) : Char :=
  if n < 10 then Char.ofNat (48 + n) else Char.ofNat (87 + n)

/-- One byte as two lowercase hex characters. -/
def byteHex (b : Nat) : List Char := [hexDigit (b / 16), hexDigit (b % 16)]

/-- Little-endian bytes of a 32-bit word. -/
def wordLEBytes (x : Nat) : List Nat :=
  [x % 256, (x >>> 8) % 256, (x >>> 16) % 256, (x >>> 24) % 256]

/-- `hashlib.md5(bytes).hexdigest()`. -/
def md5Hex (msg : List Nat) : String :=
  let padded := md5Pad msg
  let (a, b, c, d) :=
    (toBlocks padded.length padded).foldl md5Block
      (0x67452301, 0xefcdab89, 0x98badcfe, 0x10325476)
  (((wordLEBytes a ++ wordLEBytes b ++ wordLEBytes c ++ wordLEBytes d).map
      byteHex).foldr (· ++ ·) []).asString

/-- `utils.get_cache_key` (`src/excel_translator/utils.py` lines 38-47):
`hashlib.md5(text.encode('utf-8')).hexdigest()`. -/
def get_cache_key (text : String) : String :=
  md5Hex (utf8Bytes text)

/-- C5: On the formula `=CONCATENATE("你好","world")` the literal
extractor does yield exactly `["你好", "world"]`, but — contrary to the
claim and to the repository's own classifier tests — **both** literals
qualify for translation, because the malformed character class of
`is_chinese` matches the Latin letters of `"world"`.  The filter
`[s for s in strings if is_chinese(s)]` (`translation.py` line 284)
therefore keeps both strings instead of only `"你好"`.  (With the
translations the claim posits — `"你好" ↦ "Hello"`, `"world"` untouched —
the rewrite does produce `=CONCATENATE("Hello","world")`.) -/
theorem c5_formula_literals :
    extract_formula_strings "=CONCATENATE(\"你好\",\"world\")" = ["你好", "world"] ∧
    ["你好", "world"].filter is_chinese_str = ["你好", "world"] ∧
    rewrite_formula [("你好", "Hello")] ["你好", "world"]
      "=CONCATENATE(\"你好\",\"world\")" = "=CONCATENATE(\"Hello\",\"world\")" := by
  decide

/-! ## `ExcelTranslator.translate_cells_batch`
(`src/excel_translator/translation.py` lines 92-167)

The provider is abstracted as a function from the attempt number and the
text list to either a translations dict plus its remote-request count, or
a raised exception (`Except.error`). -/

/-- Instrumented outcome of one `translate_cells_batch` call. -/
structure BatchResult where
  /-- the returned `text_cache_map` -/
  result : StrDict
  /-- `self.cache` after the call -/
  cache : StrDict
  /-- the `(text, translation)` pairs written to the cache, in order -/
  insertions : List (String × String)
  /-- number of `provider.translate_batch` invocations -/
  providerCalls : Nat
  /-- total remote API requests issued by those invocations -/
  remoteRequests : Nat
  /-- the backoff sleeps performed, in seconds, in order -/
  delays : List Nat
deriving Repr, DecidableEq

/-- The collection phase (lines 110-131): build `text_cache_map` from
cache hits and `texts_to_translate` from uncached qualifying texts.
Non-strings, blank strings and non-qualifying strings are skipped. -/
def collect_texts (cache : StrDict) (cells : List CellValue) :
    StrDict × List String :=
  cells.foldl
    (fun (acc : StrDict × List String) v =>
      match v with
      | .vStr text =>
          if is_blank text then acc
          else if ¬ is_chinese_str text then acc
          else
            match dictLookup cache (get_cache_key text) with
            | some tr => (dictInsert acc.1 text tr, acc.2)
            | none => (acc.1, acc.2 ++ [text])
      | _ => acc)
    ([], [])

/-- The cache-update loop (lines 143-150): a translation is written to the
cache only when it differs from its source text; either way the text is
recorded in `text_cache_map`.  Returns (cache, map, insertions made). -/
def apply_translations (cache map : StrDict) (translations : StrDict) :
    StrDict × StrDict × List (String × String) :=
  translations.foldl
    (fun (acc : StrDict × StrDict × List (String × String)) p =>
      if p.1 ≠ p.2 then
        (dictInsert acc.1 (get_cache_key p.1) p.2,
         dictInsert acc.2.1 p.1 p.2, acc.2.2 ++ [(p.1, p.2)])
      else
        (acc.1, dictInsert acc.2.1 p.1 p.1, acc.2.2))
    (cache, map, [])

/-- The retry loop (lines 134-166).  `attemptsLeft` counts the attempts
still available including the current one; the loop is entered with
`maxRetries + 1` (Python's `for attempt in range(self.max_retries + 1)`).
On success the translations are applied and the loop breaks; on an
exception with attempts remaining it sleeps `2 ** attempt` seconds and
retries; on the last attempt it falls back to mapping every text to
itself. -/
def retry_loop (provider : Nat → List String → Except String (StrDict × Nat))
    (texts : List String) :
    Nat → Nat → StrDict → StrDict → Nat → Nat → List Nat →
      List (String × String) → BatchResult
  | 0, _, cache, map, calls, reqs, delays, ins =>
      { result := map, cache := cache, insertions := ins,
        providerCalls := calls, remoteRequests := reqs, delays := delays }
  | attemptsLeft + 1, attempt, cache, map, calls, reqs, delays, ins =>
      match provider attempt texts with
      | .ok tn =>
          let applied := apply_translations cache map tn.1
          { result := applied.2.1, cache := applied.1,
            insertions := ins ++ applied.2.2,
            providerCalls := calls + 1, remoteRequests := reqs + tn.2,
            delays := delays }
      | .error _ =>
          if attemptsLeft = 0 then
            { result := texts.foldl (fun m t => dictInsert m t t) map,
              cache := cache, insertions := ins, providerCalls := calls + 1,
              remoteRequests := reqs, delays := delays }
          else
            retry_loop provider texts attemptsLeft (attempt + 1) cache map
              (calls + 1) reqs (delays ++ [2 ^ attempt]) ins

/-- `ExcelTranslator.translate_cells_batch` (lines 92-167), instrumented. -/
def translate_cells_batch
    (provider : Nat → List String → Except String (StrDict × Nat))
    (maxRetries : Nat) (cache : StrDict) (cells : List CellValue) :
    BatchResult :=
  let mt := collect_texts cache cells
  if mt.2.isEmpty then
    { result := mt.1, cache := cache, insertions := [], providerCalls := 0,
      remoteRequests := 0, delays := [] }
  else
    retry_loop provider mt.2 (maxRetries + 1) 0 cache mt.1 0 0 [] []

/-- The cell-update loop of `translate_file` (lines 259-268): a cell is
rewritten only when its text is in the translations dict with a value
different from the original. -/
def update_cell (translations : StrDict) (v : CellValue) : CellValue :=
  match v with
  | .vStr s =>
      match dictLookup translations s with
      | some t => if s ≠ t then .vStr t else v
      | none => v
  | _ => v

/-! ## `OpenAIProvider` (`src/excel_translator/providers/openai_provider.py`)

The remote transport is abstracted as `remote : String → Option String`:
`some raw` is the joined streamed response, `none` a raised transport
exception. -/

/-- `OpenAIProvider.translate_single` (lines 28-88): blank or
non-qualifying text is returned unchanged without any remote call;
otherwise one remote request is issued, its result is stripped, and a
transport exception is caught and degrades to the original text.  Returns
the translation and the number of remote requests issued. -/
def openai_translate_single (remote : String → Option String)
    (text : String) : String × Nat :=
  if is_blank text then (text, 0)
  else if ¬ is_chinese_str text then (text, 0)
  else
    match remote text with
    | some raw => (pyStrip raw, 1)
    | none => (text, 1)

/-- `OpenAIProvider.translate_batch` (lines 90-131): map blank and
non-qualifying texts to themselves, then call `translate_single` once per
remaining text (duplicates included).  Returns the results dict and the
total remote-request count. -/
def openai_translate_batch (remote : String → Option String)
    (texts : List String) : StrDict × Nat :=
  let init := texts.foldl
    (fun (acc : StrDict × List String) text =>
      if is_blank text then (dictInsert acc.1 text text, acc.2)
      else if ¬ is_chinese_str text then (dictInsert acc.1 text text, acc.2)
      else (acc.1, acc.2 ++ [text]))
    ([], [])
  init.2.foldl
    (fun (acc : StrDict × Nat) text =>
      let r := openai_translate_single remote text
      (dictInsert acc.1 text r.1, acc.2 + r.2))
    (init.1, 0)

/-- `OpenAIProvider` as a provider for `translate_cells_batch`: it never
raises (every exception is swallowed inside `translate_single`). -/
def openai_provider (remote : String → Option String) :
    Nat → List String → Except String (StrDict × Nat) :=
  fun _ texts => .ok (openai_translate_batch remote texts)

/-! ### Dictionary fold lemmas -/

theorem lookup_foldl_id_of_not_mem (L : List String) (m : StrDict)
    (t : String) (h : t ∉ L) :
    dictLookup (L.foldl (fun m t => dictInsert m t t) m) t = dictLookup m t := by
  induction L generalizing m with
  | nil => rfl
  | cons a as ih =>
      simp only [List.mem_cons, not_or] at h
      simp only [List.foldl_cons]
      rw [ih _ h.2, dictLookup_insert_ne _ _ _ _ (Ne.symm h.1)]

theorem lookup_foldl_id_self (L : List String) (m : StrDict)
    (t : String) (h : t ∈ L) :
    dictLookup (L.foldl (fun m t => dictInsert m t t) m) t = some t := by
  induction L generalizing m with
  | nil => cases h
  | cons a as ih =>
      simp only [List.foldl_cons]
      by_cases hmem : t ∈ as
      · exact ih _ hmem
      · have ha : t = a := by
          rcases List.mem_cons.mp h with h' | h'
          · exact h'
          · exact absurd h' hmem
        subst ha
        rw [lookup_foldl_id_of_not_mem _ _ _ hmem, dictLookup_insert_self]

/-- Every binding of a dict built by identity-inserts over the empty dict
maps a key to itself. -/
theorem lookup_foldl_id_end (L : List String) (m : StrDict)
    (hm : ∀ k v, dictLookup m k = some v → v = k) :
    ∀ k v, dictLookup (L.foldl (fun m t => dictInsert m t t) m) k = some v →
      v = k := by
  induction L generalizing m with
  | nil => exact hm
  | cons a as ih =>
      simp only [List.foldl_cons]
      refine ih _ ?_
      intro k v hv
      by_cases hk : a = k
      · subst hk
        rw [dictLookup_insert_self] at hv
        exact (Option.some_inj.mp hv).symm
      · rw [dictLookup_insert_ne _ _ _ _ hk] at hv
        exact hm k v hv

/-- Behaviour of the retry loop when every attempt raises: all attempts
are consumed, the backoff schedule is `2^attempt` for each non-final
attempt, no cache write happens, and every text falls back to itself. -/
theorem retry_loop_all_fail
    (provider : Nat → List String → Except String (StrDict × Nat))
    (texts : List String)
    (hfail : ∀ a, ∃ e, provider a texts = .error e) :
    ∀ (n attempt : Nat) (cache map : StrDict) (calls reqs : Nat)
      (delays : List Nat) (ins : List (String × String)),
      retry_loop provider texts (n + 1) attempt cache map calls reqs delays ins =
        { result := texts.foldl (fun m t => dictInsert m t t) map,
          cache := cache, insertions := ins, providerCalls := calls + n + 1,
          remoteRequests := reqs,
          delays := delays ++ (List.range n).map (fun i => 2 ^ (attempt + i)) } := by
  intro n
  induction n with
  | zero =>
      intro attempt cache map calls reqs delays ins
      obtain ⟨e, he⟩ := hfail attempt
      simp [retry_loop, he]
  | succ k ih =>
      intro attempt cache map calls reqs delays ins
      obtain ⟨e, he⟩ := hfail attempt
      conv_lhs => rw [retry_loop]
      rw [he]
      simp only [ih (attempt + 1) cache map (calls + 1) reqs
        (delays ++ [2 ^ attempt]) ins]
      rw [if_neg (Nat.succ_ne_zero k)]
      have hrange : [2 ^ attempt] ++ (List.range k).map (fun i => 2 ^ (attempt + 1 + i)) =
          (List.range (k + 1)).map (fun i => 2 ^ (attempt + i)) := by
        rw [List.range_succ_eq_map, List.map_cons, List.map_map]
        simp only [List.singleton_append, Nat.add_zero]
        congr 1
        apply List.map_congr_left
        intro i _
        simp only [Function.comp_apply]
        congr 1
        omega
      have hcalls : calls + 1 + k + 1 = calls + (k + 1) + 1 := by omega
      rw [List.append_assoc, hrange, hcalls]

/-- With an empty cache, the collection phase produces an empty
`text_cache_map` (there is nothing to hit). -/
theorem collect_texts_empty_cache_fst (cells : List CellValue) :
    (collect_texts [] cells).1 = [] := by
  suffices h : ∀ acc : StrDict × List String,
      (cells.foldl
        (fun (acc : StrDict × List String) v =>
          match v with
          | .vStr text =>
              if is_blank text then acc
              else if ¬ is_chinese_str text then acc
              else
                match dictLookup [] (get_cache_key text) with
                | some tr => (dictInsert acc.1 text tr, acc.2)
                | none => (acc.1, acc.2 ++ [text])
          | _ => acc) acc).1 = acc.1 by
    exact h ([], [])
  induction cells with
  | nil => intro acc; rfl
  | cons v rest ih =>
      intro acc
      cases v with
      | vStr text =>
          by_cases hb : is_blank text = true
          · simpa [hb] using ih acc
          · by_cases hc : is_chinese_str text = true
            · simpa [hb, hc, dictLookup] using ih (acc.1, acc.2 ++ [text])
            · simpa [hb, hc] using ih acc
      | vNum n => exact ih acc
      | vBool b => exact ih acc
      | vNone => exact ih acc

/-- C2: If every remote translation attempt fails (the provider raises on
every attempt), then after the retries are exhausted
`translate_cells_batch` returns normally — no exception propagates, the
embedding reaches the exhausted-retry branch — with a mapping in which
every to-translate text maps to itself, and the cache is untouched.
Moreover, starting from an empty cache (so that the returned mapping is
built entirely from the fallback), rewriting any cell with the returned
mapping leaves the cell unchanged: no cell is left null or corrupted. -/
theorem c2_all_fail_fallback
    (provider : Nat → List String → Except String (StrDict × Nat))
    (maxRetries : Nat) (cache : StrDict) (cells : List CellValue)
    (hfail : ∀ a ts, ∃ e, provider a ts = .error e) :
    (∀ t ∈ (collect_texts cache cells).2,
        dictLookup (translate_cells_batch provider maxRetries cache cells).result t
          = some t) ∧
    (translate_cells_batch provider maxRetries cache cells).cache = cache ∧
    (∀ v, update_cell (translate_cells_batch provider maxRetries [] cells).result v
        = v) := by
  have main : ∀ cache : StrDict,
      (∀ t ∈ (collect_texts cache cells).2,
        dictLookup (translate_cells_batch provider maxRetries cache cells).result t
          = some t) ∧
      (translate_cells_batch provider maxRetries cache cells).cache = cache := by
    intro cache
    unfold translate_cells_batch
    by_cases hempty : (collect_texts cache cells).2.isEmpty
    · simp only [hempty, if_true]
      refine ⟨?_, by trivial⟩
      intro t ht
      rw [List.isEmpty_iff] at hempty
      rw [hempty] at ht
      cases ht
    · simp only [hempty, if_false]
      rw [retry_loop_all_fail provider _ (fun a => hfail a _) maxRetries 0 cache
        (collect_texts cache cells).1 0 0 [] []]
      constructor
      · intro t ht
        exact lookup_foldl_id_self _ _ _ ht
      · rfl
  refine ⟨(main cache).1, (main cache).2, ?_⟩
  intro v
  have hid : ∀ k w,
      dictLookup (translate_cells_batch provider maxRetries [] cells).result k
        = some w → w = k := by
    unfold translate_cells_batch
    by_cases hempty : (collect_texts [] cells).2.isEmpty
    · simp only [hempty, if_true, collect_texts_empty_cache_fst]
      intro k w hw
      simp [dictLookup] at hw
    · simp only [hempty, if_false]
      rw [retry_loop_all_fail provider _ (fun a => hfail a _) maxRetries 0 []
        (collect_texts [] cells).1 0 0 [] []]
      rw [collect_texts_empty_cache_fst]
      exact lookup_foldl_id_end _ [] (by intro k v h; simp [dictLookup] at h)
  cases v with
  | vStr s =>
      cases hl : dictLookup (translate_cells_batch provider maxRetries [] cells).result s with
      | none => simp [update_cell, hl]
      | some t =>
          have ht : t = s := hid s t hl
          subst ht
          simp [update_cell, hl]
  | vNum n => rfl
  | vBool b => rfl
  | vNone => rfl

/-- C2 witness: a concrete always-failing provider, `max_retries = 5`, an
empty cache, one qualifying cell `"你好"`: the returned mapping sends
`"你好"` to itself, the cache stays empty, and the cell is unchanged by
the write-back. -/
theorem c2_all_fail_fallback_witness :
    dictLookup (translate_cells_batch (fun _ _ => .error "boom") 5 []
      [.vStr "你好"]).result "你好" = some "你好" ∧
    (translate_cells_batch (fun _ _ => .error "boom") 5 []
      [.vStr "你好"]).cache = [] ∧
    update_cell (translate_cells_batch (fun _ _ => .error "boom") 5 []
      [.vStr "你好"]).result (.vStr "你好") = .vStr "你好" := by
  obtain ⟨h1, h2, h3⟩ := c2_all_fail_fallback (fun _ _ => .error "boom") 5 []
    [.vStr "你好"] (fun a ts => ⟨"boom", rfl⟩)
  exact ⟨h1 "你好" (by decide), h2, h3 (.vStr "你好")⟩

/-! ## `ExcelTranslator.translate_file`
(`src/excel_translator/translation.py` lines 169-329)

The workbook is modelled as sheets in declared order, each sheet being its
cells in row-major iteration order.  Backup creation, the initial
byte-for-byte copy and workbook loading are file I/O outside the
translation logic; the embedding starts at the scan (line 217). -/

/-- A sheet: its cells in row-major iteration order. -/
abbrev Sheet := List CellValue

/-- A workbook: sheets in declared order. -/
abbrev Workbook := List Sheet

/-- The cell-collection condition (line 225): `cell.value and
isinstance(cell.value, str) and cell.value.strip() and
is_chinese(cell.value)`.  For a string, truthiness of the value and of its
strip collapse to "not blank". -/
def needs_translation_cell (v : CellValue) : Bool :=
  match v with
  | .vStr s => !is_blank s && is_chinese_str s
  | _ => false

/-- The formula test (line 226): `cell.value.startswith('=')`. -/
def cell_is_formula (v : CellValue) : Bool :=
  match v with
  | .vStr s => s.startsWith "="
  | _ => false

/-- The scan of one sheet (inner loop of lines 221-229) starting at cell
index `ci` of sheet `si`: positions of the qualifying regular and formula
cells, in iteration order. -/
def scan_cells (si ci : Nat) : List CellValue → List (Nat × Nat) × List (Nat × Nat)
  | [] => ([], [])
  | v :: rest =>
      let r := scan_cells si (ci + 1) rest
      if needs_translation_cell v then
        if cell_is_formula v then (r.1, (si, ci) :: r.2)
        else ((si, ci) :: r.1, r.2)
      else r

/-- The scan over the sheets (outer loop of lines 221-229) starting at
sheet index `si`. -/
def scan_sheets (si : Nat) : List Sheet → List (Nat × Nat) × List (Nat × Nat)
  | [] => ([], [])
  | sheet :: rest =>
      let s := scan_cells si 0 sheet
      let r := scan_sheets (si + 1) rest
      (s.1 ++ r.1, s.2 ++ r.2)

/-- The scan (lines 218-229): positions `(sheet index, cell index)` of the
`all_cells` (regular) and `formula_cells` lists, in scan order. -/
def scan_positions (wb : Workbook) : List (Nat × Nat) × List (Nat × Nat) :=
  scan_sheets 0 wb

/-- Read the cell at a position (out-of-range reads yield `vNone`; the
run only ever uses in-range positions produced by the scan). -/
def getCell (wb : Workbook) (p : Nat × Nat) : CellValue :=
  (wb.getD p.1 []).getD p.2 .vNone

/-- Write the cell at a position (out-of-range writes are no-ops, matching
`List.set`). -/
def setCell (wb : Workbook) (p : Nat × Nat) (v : CellValue) : Workbook :=
  wb.set p.1 ((wb.getD p.1 []).set p.2 v)

/-- Python's `range(0, len(cells), batch_size)` slicing: split a list into
chunks of `batchSize` (last chunk possibly shorter).  `fuel` bounds the
recursion; with `batchSize ≥ 1` every step consumes at least one element,
so `fuel = length` is always enough. -/
def chunksGo (batchSize : Nat) : Nat → List α → List (List α)
  | _, [] => []
  | 0, _ => []
  | fuel + 1, l => l.take batchSize :: chunksGo batchSize fuel (l.drop batchSize)

/-- The batches of regular cells processed by the main loop (line 241). -/
def chunks (batchSize : Nat) (l : List α) : List (List α) :=
  chunksGo batchSize l.length l

/-- Observable events of one run, for the checkpoint/file-save policy. -/
inductive RunEvent where
  /-- an intermediate `workbook.save(output_file)` triggered by
  `cells_processed % save_interval == 0`, tagged with the counter value -/
  | checkpoint (processed : Nat)
  /-- a regular batch finished, tagged with the counter value after it was
  added (the counter is incremented before the batch is translated) -/
  | batchDone (processed : Nat)
  /-- a formula cell finished, tagged with the counter value -/
  | formulaDone (processed : Nat)
  /-- the final `workbook.save(output_file)` (line 323) -/
  | finalSave
deriving DecidableEq, Repr

/-- The run's evolving state: the in-memory workbook, the instance cache,
the `cells_processed` counter, and the instrumentation. -/
structure RunState where
  wb : Workbook
  cache : StrDict
  processed : Nat
  events : List RunEvent
  remoteRequests : Nat
  providerCalls : Nat
  insertions : List (String × String)
deriving Repr

/-- One iteration of the regular-cell loop (lines 241-270): advance the
counter by the batch length, checkpoint if the counter is a multiple of
the save interval, translate the batch, and write back each non-identity
translation. -/
def regular_batch_step
    (provider : Nat → List String → Except String (StrDict × Nat))
    (maxRetries saveInterval : Nat) (st : RunState)
    (batch : List (Nat × Nat)) : RunState :=
  let processed := st.processed + batch.length
  let events := st.events ++
    (if processed % saveInterval == 0 then [RunEvent.checkpoint processed] else [])
  let br := translate_cells_batch provider maxRetries st.cache
    (batch.map (fun p => getCell st.wb p))
  let wb' := batch.foldl
    (fun wb p => setCell wb p (update_cell br.result (getCell wb p))) st.wb
  { wb := wb', cache := br.cache, processed := processed,
    events := events ++ [RunEvent.batchDone processed],
    remoteRequests := st.remoteRequests + br.remoteRequests,
    providerCalls := st.providerCalls + br.providerCalls,
    insertions := st.insertions ++ br.insertions }

/-- One iteration of the formula-cell loop (lines 273-316): extract the
quoted literals, keep those satisfying the classifier, translate them
through the same batch path (the duck-typed mock cells), replace each
translated literal in the formula, write back only if the formula changed,
advance the counter, and checkpoint if it is a multiple of the save
interval (here the save follows the cell, line 311). -/
def formula_cell_step
    (provider : Nat → List String → Except String (StrDict × Nat))
    (maxRetries saveInterval : Nat) (st : RunState)
    (p : Nat × Nat) : RunState :=
  let st' :=
    match getCell st.wb p with
    | .vStr original_formula =>
        let chinese_strings :=
          (extract_formula_strings original_formula).filter is_chinese_str
        if chinese_strings.isEmpty then st
        else
          let br := translate_cells_batch provider maxRetries st.cache
            (chinese_strings.map .vStr)
          let translated := rewrite_formula br.result chinese_strings original_formula
          { wb := if translated ≠ original_formula then
                setCell st.wb p (.vStr translated) else st.wb,
            cache := br.cache, processed := st.processed, events := st.events,
            remoteRequests := st.remoteRequests + br.remoteRequests,
            providerCalls := st.providerCalls + br.providerCalls,
            insertions := st.insertions ++ br.insertions }
    | _ => st
  let processed := st'.processed + 1
  { st' with
    processed := processed,
    events := st'.events ++ [RunEvent.formulaDone processed] ++
      (if processed % saveInterval == 0 then [RunEvent.checkpoint processed] else []) }

/-- `ExcelTranslator.translate_file` from the scan onward: collect the
regular and formula cells, process the regular cells in batches, then the
formula cells one at a time, then save the final document. -/
def translate_file
    (provider : Nat → List String → Except String (StrDict × Nat))
    (maxRetries batchSize saveInterval : Nat) (cache : StrDict)
    (wb : Workbook) : RunState :=
  let scanned := scan_positions wb
  let st0 : RunState :=
    { wb := wb, cache := cache, processed := 0, events := [],
      remoteRequests := 0, providerCalls := 0, insertions := [] }
  let st1 := (chunks batchSize scanned.1).foldl
    (regular_batch_step provider maxRetries saveInterval) st0
  let st2 := scanned.2.foldl
    (formula_cell_step provider maxRetries saveInterval) st1
  { st2 with events := st2.events ++ [RunEvent.finalSave] }

/-- C4 counterexample: two distinct cells of one sheet holding the exact
same string `"你好"`, empty cache, default `batch_size = 5`: the two
occurrences land in the same batch, the batch's `texts_to_translate` list
holds the string twice, and `OpenAIProvider.translate_batch` calls
`translate_single` once per occurrence — the run issues **2** remote
translation requests for the string, not exactly one as claimed.  (Both
cells are nonetheless updated to the identical translated value.) -/
theorem c4_same_batch_two_requests :
    (translate_file (openai_provider (fun _ => some "Hello")) 5 5 20 []
      [[.vStr "你好", .vStr "你好"]]).remoteRequests = 2 ∧
    (translate_file (openai_provider (fun _ => some "Hello")) 5 5 20 []
      [[.vStr "你好", .vStr "你好"]]).wb = [[.vStr "Hello", .vStr "Hello"]] := by
  constructor <;> decide

/-- C4 amended: two distinct cells holding the same source string are
always updated to the identical translated value, but the remote client is
asked once per duplicate occurrence within the dispatched batch; only a
string already in the cache issues no request, so the string is translated
exactly once only across batches/runs (content-addressed caching), not
within one batch.  Formally, for a qualifying non-formula string `s` whose
remote translation differs from it: the first run over a sheet with two
copies of `s` issues two remote requests and rewrites both cells to the
identical stripped translation, and a second run over a fresh copy of the
same sheet, reusing the first run's cache, issues zero remote requests and
rewrites both cells identically again. -/
theorem c4_amended_dedup_via_cache
    (remote : String → Option String) (maxRetries : Nat) (s raw : String)
    (hb : is_blank s = false) (hc : is_chinese_str s = true)
    (hf : s.startsWith "=" = false)
    (hremote : remote s = some raw) (hne : pyStrip raw ≠ s) :
    (translate_file (openai_provider remote) maxRetries 5 20 []
      [[.vStr s, .vStr s]]).remoteRequests = 2 ∧
    (translate_file (openai_provider remote) maxRetries 5 20 []
      [[.vStr s, .vStr s]]).wb = [[.vStr (pyStrip raw), .vStr (pyStrip raw)]] ∧
    (translate_file (openai_provider remote) maxRetries 5 20
        (translate_file (openai_provider remote) maxRetries 5 20 []
          [[.vStr s, .vStr s]]).cache
        [[.vStr s, .vStr s]]).remoteRequests = 0 ∧
    (translate_file (openai_provider remote) maxRetries 5 20
        (translate_file (openai_provider remote) maxRetries 5 20 []
          [[.vStr s, .vStr s]]).cache
        [[.vStr s, .vStr s]]).wb = [[.vStr (pyStrip raw), .vStr (pyStrip raw)]] := by
  have hne' : s ≠ pyStrip raw := Ne.symm hne
  simp [translate_file, scan_positions, scan_sheets, scan_cells,
    needs_translation_cell, cell_is_formula, hb, hc, hf, chunks, chunksGo,
    regular_batch_step, formula_cell_step, translate_cells_batch,
    collect_texts, getCell, List.getD, openai_provider, openai_translate_batch,
    openai_translate_single, retry_loop, apply_translations, dictInsert, dictLookup,
    dictMem, update_cell, setCell, hremote, hne, hne', List.get?, Option.getD]

/-- C4 amended, witness: `s = "您好"`, remote answer `"Hi"`,
`max_retries = 5`. -/
theorem c4_amended_dedup_via_cache_witness :
    (translate_file (openai_provider (fun _ => some "Hi")) 5 5 20 []
      [[.vStr "您好", .vStr "您好"]]).remoteRequests = 2 ∧
    (translate_file (openai_provider (fun _ => some "Hi")) 5 5 20 []
      [[.vStr "您好", .vStr "您好"]]).wb = [[.vStr (pyStrip "Hi"), .vStr (pyStrip "Hi")]] ∧
    (translate_file (openai_provider (fun _ => some "Hi")) 5 5 20
        (translate_file (openai_provider (fun _ => some "Hi")) 5 5 20 []
          [[.vStr "您好", .vStr "您好"]]).cache
        [[.vStr "您好", .vStr "您好"]]).remoteRequests = 0 ∧
    (translate_file (openai_provider (fun _ => some "Hi")) 5 5 20
        (translate_file (openai_provider (fun _ => some "Hi")) 5 5 20 []
          [[.vStr "您好", .vStr "您好"]]).cache
        [[.vStr "您好", .vStr "您好"]]).wb = [[.vStr (pyStrip "Hi"), .vStr (pyStrip "Hi")]] :=
  c4_amended_dedup_via_cache (fun _ => some "Hi") 5 "您好" "Hi"
    (by decide) (by decide) (by decide) rfl (by decide)

/-! ### Checkpoint policy (C6) -/

/-- Trace coherence of the save policy: an intermediate save happens only
at counter values that are multiples of the save interval, and whenever
the counter reaches such a multiple (after a regular batch or a formula
cell) an intermediate save with that counter value is in the trace. -/
def EventsOK (N : Nat) (evs : List RunEvent) : Prop :=
  (∀ p, RunEvent.checkpoint p ∈ evs → p % N = 0) ∧
  (∀ p, (RunEvent.batchDone p ∈ evs ∨ RunEvent.formulaDone p ∈ evs) →
      p % N = 0 → RunEvent.checkpoint p ∈ evs)

theorem foldl_preserve {α σ : Type _} (f : σ → α → σ) (P : σ → Prop)
    (h : ∀ s a, P s → P (f s a)) :
    ∀ (l : List α) (s : σ), P s → P (l.foldl f s) := by
  intro l
  induction l with
  | nil => intro s hs; exact hs
  | cons a as ih => intro s hs; exact ih _ (h s a hs)

theorem eventsOK_regular_batch_step
    (provider : Nat → List String → Except String (StrDict × Nat))
    (maxRetries N : Nat) (st : RunState) (batch : List (Nat × Nat))
    (h : EventsOK N st.events) :
    EventsOK N (regular_batch_step provider maxRetries N st batch).events := by
  obtain ⟨h1, h2⟩ := h
  have hev : (regular_batch_step provider maxRetries N st batch).events =
      st.events ++
        (if (st.processed + batch.length) % N == 0 then
          [RunEvent.checkpoint (st.processed + batch.length)] else []) ++
        [RunEvent.batchDone (st.processed + batch.length)] := rfl
  refine ⟨?_, ?_⟩
  · intro p hp
    rw [hev] at hp
    by_cases hc : ((st.processed + batch.length) % N == 0) = true
    · simp [hc] at hp
      rcases hp with hp | hp
      · exact h1 p hp
      · subst hp
        exact beq_iff_eq.mp hc
    · simp [hc] at hp
      exact h1 p hp
  · intro p hp hmul
    rw [hev] at hp ⊢
    by_cases hc : ((st.processed + batch.length) % N == 0) = true
    · simp [hc] at hp ⊢
      rcases hp with (hp | hp) | hp
      · exact Or.inl (h2 p (Or.inl hp) hmul)
      · exact Or.inr hp
      · exact Or.inl (h2 p (Or.inr hp) hmul)
    · simp [hc] at hp ⊢
      rcases hp with (hp | hp) | hp
      · exact h2 p (Or.inl hp) hmul
      · exact absurd (beq_iff_eq.mpr (hp ▸ hmul)) hc
      · exact h2 p (Or.inr hp) hmul

theorem eventsOK_formula_cell_step
    (provider : Nat → List String → Except String (StrDict × Nat))
    (maxRetries N : Nat) (st : RunState) (p : Nat × Nat)
    (h : EventsOK N st.events) :
    EventsOK N (formula_cell_step provider maxRetries N st p).events := by
  obtain ⟨h1, h2⟩ := h
  have key : ∀ st' : RunState, st'.events = st.events →
      EventsOK N (st'.events ++ [RunEvent.formulaDone (st'.processed + 1)] ++
        (if (st'.processed + 1) % N == 0 then
          [RunEvent.checkpoint (st'.processed + 1)] else [])) := by
    intro st' hev
    rw [hev]
    refine ⟨?_, ?_⟩
    · intro q hq
      by_cases hc : ((st'.processed + 1) % N == 0) = true
      · simp [hc] at hq
        rcases hq with hq | hq
        · exact h1 q hq
        · subst hq
          exact beq_iff_eq.mp hc
      · simp [hc] at hq
        exact h1 q hq
    · intro q hq hmul
      by_cases hc : ((st'.processed + 1) % N == 0) = true
      · simp [hc] at hq ⊢
        rcases hq with hq | (hq | hq)
        · exact Or.inl (h2 q (Or.inl hq) hmul)
        · exact Or.inl (h2 q (Or.inr hq) hmul)
        · exact Or.inr hq
      · simp [hc] at hq ⊢
        rcases hq with hq | (hq | hq)
        · exact h2 q (Or.inl hq) hmul
        · exact h2 q (Or.inr hq) hmul
        · exact absurd (beq_iff_eq.mpr (hq ▸ hmul)) hc
  unfold formula_cell_step
  cases hv : getCell st.wb p with
  | vStr original_formula =>
      by_cases hcs : ((extract_formula_strings original_formula).filter
          is_chinese_str).isEmpty
      · simpa [hv, hcs] using key st rfl
      · simp only [hv, hcs]
        exact key _ rfl
  | vNum n => simpa [hv] using key st rfl
  | vBool b => simpa [hv] using key st rfl
  | vNone => simpa [hv] using key st rfl

/-- C6: In every run, intermediate document saves happen exactly at the
multiples of the configured save interval reached by the
`cells_processed` counter: every `checkpoint` event in the run's trace
carries a counter value divisible by the save interval, every counter
value reached (after a regular batch or after a formula cell) that is
divisible by the save interval has a `checkpoint` event in the trace, and
the run ends with the final full-document save. -/
theorem c6_save_every_interval
    (provider : Nat → List String → Except String (StrDict × Nat))
    (maxRetries batchSize saveInterval : Nat) (cache : StrDict)
    (wb : Workbook) (hN : 0 < saveInterval) :
    (∀ p, RunEvent.checkpoint p ∈
        (translate_file provider maxRetries batchSize saveInterval cache wb).events →
        p % saveInterval = 0) ∧
    (∀ p, (RunEvent.batchDone p ∈
          (translate_file provider maxRetries batchSize saveInterval cache wb).events ∨
        RunEvent.formulaDone p ∈
          (translate_file provider maxRetries batchSize saveInterval cache wb).events) →
        p % saveInterval = 0 →
        RunEvent.checkpoint p ∈
          (translate_file provider maxRetries batchSize saveInterval cache wb).events) ∧
    RunEvent.finalSave ∈
      (translate_file provider maxRetries batchSize saveInterval cache wb).events := by
  clear hN
  have hOK : EventsOK saveInterval
      ((scan_positions wb).2.foldl (formula_cell_step provider maxRetries saveInterval)
        ((chunks batchSize (scan_positions wb).1).foldl
          (regular_batch_step provider maxRetries saveInterval)
          { wb := wb, cache := cache, processed := 0, events := [],
            remoteRequests := 0, providerCalls := 0, insertions := [] })).events := by
    apply foldl_preserve (formula_cell_step provider maxRetries saveInterval)
      (fun st => EventsOK saveInterval st.events)
      (fun st q h => eventsOK_formula_cell_step provider maxRetries saveInterval st q h)
    apply foldl_preserve (regular_batch_step provider maxRetries saveInterval)
      (fun st => EventsOK saveInterval st.events)
      (fun st b h => eventsOK_regular_batch_step provider maxRetries saveInterval st b h)
    exact ⟨fun p hp => absurd hp (List.not_mem_nil _),
      fun p hp _ => hp.elim (fun h => absurd h (List.not_mem_nil _))
        (fun h => absurd h (List.not_mem_nil _))⟩
  obtain ⟨h1, h2⟩ := hOK
  have hev : (translate_file provider maxRetries batchSize saveInterval cache wb).events =
      ((scan_positions wb).2.foldl (formula_cell_step provider maxRetries saveInterval)
        ((chunks batchSize (scan_positions wb).1).foldl
          (regular_batch_step provider maxRetries saveInterval)
          { wb := wb, cache := cache, processed := 0, events := [],
            remoteRequests := 0, providerCalls := 0, insertions := [] })).events ++
        [RunEvent.finalSave] := rfl
  rw [hev]
  refine ⟨?_, ?_, List.mem_append_right _ (List.mem_singleton.mpr rfl)⟩
  · intro p hp
    rcases List.mem_append.mp hp with hp | hp
    · exact h1 p hp
    · cases List.mem_singleton.mp hp
  · intro p hp hmul
    refine List.mem_append_left _ (h2 p ?_ hmul)
    rcases hp with hp | hp
    · rcases List.mem_append.mp hp with hp | hp
      · exact Or.inl hp
      · cases List.mem_singleton.mp hp
    · rcases List.mem_append.mp hp with hp | hp
      · exact Or.inr hp
      · cases List.mem_singleton.mp hp

/-- C6 witness: a concrete run (`batch_size = 2`, `save_interval = 3`,
three regular cells and one formula cell) in which the counter reaches the
multiple 3 after the second batch: the final save is in the trace. -/
theorem c6_save_every_interval_witness :
    RunEvent.finalSave ∈
      (translate_file (openai_provider (fun _ => some "X")) 5 2 3 []
        [[.vStr "你", .vStr "好", .vStr "吗"]]).events :=
  (c6_save_every_interval (openai_provider (fun _ => some "X")) 5 2 3 []
    [[.vStr "你", .vStr "好", .vStr "吗"]] (by decide)).2.2

/-! ### Frame effect of a run (C8) -/

/-- The cell value at a position, `none` when out of range. -/
def cellAt (wb : Workbook) (p : Nat × Nat) : Option CellValue :=
  (wb[p.1]?).bind (fun sheet => sheet[p.2]?)

/-- Every position collected by the sheet scan carries (at an offset of
the starting cell index) a cell that satisfies the collection condition. -/
theorem scan_cells_mem (si ci : Nat) (sheet : List CellValue) (p : Nat × Nat)
    (hp : p ∈ (scan_cells si ci sheet).1 ∨ p ∈ (scan_cells si ci sheet).2) :
    ∃ j v, p = (si, ci + j) ∧ sheet[j]? = some v ∧
      needs_translation_cell v = true := by
  induction sheet generalizing ci with
  | nil =>
      rcases hp with hp | hp <;> exact absurd hp (List.not_mem_nil _)
  | cons v rest ih =>
      have step : (p ∈ (scan_cells si (ci + 1) rest).1 ∨
          p ∈ (scan_cells si (ci + 1) rest).2) →
          ∃ j w, p = (si, ci + j) ∧ (v :: rest)[j]? = some w ∧
            needs_translation_cell w = true := by
        intro hq
        obtain ⟨j, w, hq1, hq2, hq3⟩ := ih (ci + 1) hq
        refine ⟨j + 1, w, ?_, by simpa using hq2, hq3⟩
        rw [hq1]
        have : ci + 1 + j = ci + (j + 1) := by omega
        rw [this]
      by_cases hn : needs_translation_cell v = true
      · by_cases hf : cell_is_formula v = true
        · simp only [scan_cells, hn, hf, if_true] at hp
          rcases hp with hp | hp
          · exact step (Or.inl hp)
          · rcases List.mem_cons.mp hp with hp | hp
            · exact ⟨0, v, by rw [hp, Nat.add_zero], by simp, hn⟩
            · exact step (Or.inr hp)
        · simp only [scan_cells, hn, hf, if_true, if_false, Bool.false_eq_true] at hp
          rcases hp with hp | hp
          · rcases List.mem_cons.mp hp with hp | hp
            · exact ⟨0, v, by rw [hp, Nat.add_zero], by simp, hn⟩
            · exact step (Or.inl hp)
          · exact step (Or.inr hp)
      · simp only [scan_cells, hn, if_false, Bool.false_eq_true] at hp
        exact step hp

/-- Every position collected by the workbook scan carries a cell that
satisfies the collection condition. -/
theorem scan_sheets_mem (si : Nat) (sheets : List Sheet) (p : Nat × Nat)
    (hp : p ∈ (scan_sheets si sheets).1 ∨ p ∈ (scan_sheets si sheets).2) :
    ∃ i sheet j v, p = (si + i, j) ∧ sheets[i]? = some sheet ∧
      sheet[j]? = some v ∧ needs_translation_cell v = true := by
  induction sheets generalizing si with
  | nil =>
      rcases hp with hp | hp <;> exact absurd hp (List.not_mem_nil _)
  | cons sheet rest ih =>
      have hsplit : p ∈ (scan_cells si 0 sheet).1 ∨ p ∈ (scan_cells si 0 sheet).2 ∨
          (p ∈ (scan_sheets (si + 1) rest).1 ∨ p ∈ (scan_sheets (si + 1) rest).2) := by
        rcases hp with hp | hp
        · rcases List.mem_append.mp hp with hp | hp
          · exact Or.inl hp
          · exact Or.inr (Or.inr (Or.inl hp))
        · rcases List.mem_append.mp hp with hp | hp
          · exact Or.inr (Or.inl hp)
          · exact Or.inr (Or.inr (Or.inr hp))
      have hthis : ∀ hp' : p ∈ (scan_cells si 0 sheet).1 ∨ p ∈ (scan_cells si 0 sheet).2,
          ∃ i sh j v, p = (si + i, j) ∧ (sheet :: rest)[i]? = some sh ∧
            sh[j]? = some v ∧ needs_translation_cell v = true := by
        intro hp'
        obtain ⟨j, v, h1, h2, h3⟩ := scan_cells_mem si 0 sheet p hp'
        refine ⟨0, sheet, j, v, ?_, by simp, by simpa using h2, h3⟩
        rw [h1]
        simp
      rcases hsplit with hp' | hp' | hp'
      · exact hthis (Or.inl hp')
      · exact hthis (Or.inr hp')
      · obtain ⟨i, sheet', j, v, h1, h2, h3, h4⟩ := ih (si + 1) hp'
        refine ⟨i + 1, sheet', j, v, ?_, by simpa using h2, h3, h4⟩
        rw [h1]
        have : si + 1 + i = si + (i + 1) := by omega
        rw [this]

/-- Writing a cell at one position does not change the value read at any
other position. -/
theorem cellAt_setCell_ne (wb : Workbook) (p q : Nat × Nat) (v : CellValue)
    (h : p ≠ q) :
    cellAt (setCell wb p v) q = cellAt wb q := by
  unfold cellAt setCell
  by_cases h1 : p.1 = q.1
  · have h2 : p.2 ≠ q.2 := fun h2 => h (Prod.ext h1 h2)
    rw [List.getElem?_set, if_pos h1]
    by_cases hlen : p.1 < wb.length
    · rw [if_pos hlen]
      have hw : wb[q.1]? = some (wb.getD p.1 []) := by
        rw [← h1]
        rw [List.getD_eq_getElem?_getD]
        rw [List.getElem?_eq_getElem hlen]
        rfl
      rw [hw]
      show ((wb.getD p.1 []).set p.2 v)[q.2]? = (wb.getD p.1 [])[q.2]?
      exact List.getElem?_set_ne h2
    · rw [if_neg hlen]
      have hq : wb[q.1]? = none := by
        rw [← h1]
        exact List.getElem?_eq_none (Nat.le_of_not_lt hlen)
      rw [hq]
  · rw [List.getElem?_set_ne h1]

/-- A fold of positional writes leaves every position outside the write
list unchanged. -/
theorem cellAt_foldl_setCell (f : Workbook → Nat × Nat → CellValue)
    (ps : List (Nat × Nat)) (wb : Workbook) (q : Nat × Nat) (h : q ∉ ps) :
    cellAt (ps.foldl (fun wb p => setCell wb p (f wb p)) wb) q = cellAt wb q := by
  induction ps generalizing wb with
  | nil => rfl
  | cons a as ih =>
      simp only [List.mem_cons, not_or] at h
      simp only [List.foldl_cons]
      rw [ih _ h.2, cellAt_setCell_ne _ _ _ _ (Ne.symm h.1)]

/-- A conditional single-cell write leaves every other position
unchanged. -/
theorem cellAt_ite_setCell (c : Prop) [Decidable c] (wb : Workbook)
    (p q : Nat × Nat) (v : CellValue) (h : p ≠ q) :
    cellAt (if c then setCell wb p v else wb) q = cellAt wb q := by
  split
  · exact cellAt_setCell_ne _ _ _ _ h
  · rfl

/-- A regular batch step does not change any cell outside its batch. -/
theorem regular_batch_step_frame
    (provider : Nat → List String → Except String (StrDict × Nat))
    (maxRetries N : Nat) (st : RunState) (batch : List (Nat × Nat))
    (q : Nat × Nat) (h : q ∉ batch) :
    cellAt (regular_batch_step provider maxRetries N st batch).wb q =
      cellAt st.wb q := by
  exact cellAt_foldl_setCell _ batch st.wb q h

/-- A formula step does not change any cell other than its own. -/
theorem formula_cell_step_frame
    (provider : Nat → List String → Except String (StrDict × Nat))
    (maxRetries N : Nat) (st : RunState) (p : Nat × Nat)
    (q : Nat × Nat) (h : q ≠ p) :
    cellAt (formula_cell_step provider maxRetries N st p).wb q =
      cellAt st.wb q := by
  cases hv : getCell st.wb p with
  | vStr original_formula =>
      by_cases hcs : ((extract_formula_strings original_formula).filter
          is_chinese_str).isEmpty
      · simp [formula_cell_step, hv, hcs]
      · simp only [formula_cell_step, hv]
        rw [if_neg hcs]
        exact cellAt_ite_setCell _ st.wb p q _ (Ne.symm h)
  | vNum n => simp [formula_cell_step, hv]
  | vBool b => simp [formula_cell_step, hv]
  | vNone => simp [formula_cell_step, hv]

/-- Fold preservation restricted to members of the folded list. -/
theorem foldl_preserve_mem {α σ : Type _} (f : σ → α → σ) (P : σ → Prop) :
    ∀ (l : List α), (∀ s a, a ∈ l → P s → P (f s a)) →
      ∀ s, P s → P (l.foldl f s) := by
  intro l
  induction l with
  | nil => intro _ s hs; exact hs
  | cons a as ih =>
      intro h s hs
      exact ih (fun s b hb => h s b (List.mem_cons_of_mem a hb)) _
        (h s a (List.mem_cons_self a as) hs)

/-- Every element of every chunk comes from the chunked list. -/
theorem mem_chunksGo_subset {α : Type _} (bs : Nat) :
    ∀ (fuel : Nat) (l : List α) (c : List α), c ∈ chunksGo bs fuel l → c ⊆ l := by
  intro fuel
  induction fuel with
  | zero =>
      intro l c hc
      cases l with
      | nil => exact absurd hc (List.not_mem_nil _)
      | cons a as => exact absurd hc (List.not_mem_nil _)
  | succ fuel ih =>
      intro l c hc
      cases l with
      | nil => exact absurd hc (List.not_mem_nil _)
      | cons a as =>
          rcases List.mem_cons.mp hc with hc | hc
          · rw [hc]
            exact List.take_subset _ _
          · exact (ih _ _ hc).trans (List.drop_subset _ _)

/-- C8: A run mutates only cells whose value is a non-blank string
satisfying the classifier (the collection condition of line 225): every
cell whose value fails that condition — numeric, boolean, null, blank, or
a string the classifier rejects — holds exactly its original value in the
final workbook. -/
theorem c8_run_preserves_unqualified_cells
    (provider : Nat → List String → Except String (StrDict × Nat))
    (maxRetries batchSize saveInterval : Nat) (cache : StrDict)
    (wb : Workbook) (q : Nat × Nat) (v : CellValue)
    (hv : cellAt wb q = some v) (hnp : needs_translation_cell v = false) :
    cellAt (translate_file provider maxRetries batchSize saveInterval cache wb).wb q
      = some v := by
  have hq : ∀ h : q ∈ (scan_positions wb).1 ∨ q ∈ (scan_positions wb).2, False := by
    intro h
    obtain ⟨i, sheet, j, v', h1, h2, h3, h4⟩ := scan_sheets_mem 0 wb q h
    rw [Nat.zero_add] at h1
    have hv' : cellAt wb q = some v' := by
      rw [h1]
      show (wb[i]?).bind (fun s => s[j]?) = some v'
      rw [h2]
      simpa using h3
    rw [hv] at hv'
    have hvv : v = v' := Option.some_inj.mp hv'
    rw [← hvv] at h4
    rw [h4] at hnp
    cases hnp
  have hwb : (translate_file provider maxRetries batchSize saveInterval cache wb).wb =
      ((scan_positions wb).2.foldl (formula_cell_step provider maxRetries saveInterval)
        ((chunks batchSize (scan_positions wb).1).foldl
          (regular_batch_step provider maxRetries saveInterval)
          { wb := wb, cache := cache, processed := 0, events := [],
            remoteRequests := 0, providerCalls := 0, insertions := [] })).wb := rfl
  rw [hwb]
  have hP : ∀ st : RunState, cellAt st.wb q = some v →
      cellAt (((scan_positions wb).2.foldl
        (formula_cell_step provider maxRetries saveInterval) st)).wb q = some v := by
    intro st hst
    refine foldl_preserve_mem _ (fun st : RunState => cellAt st.wb q = some v) _ ?_ st hst
    intro s p hp hPs
    rw [formula_cell_step_frame provider maxRetries saveInterval s p q ?_]
    · exact hPs
    · intro hqp
      exact hq (Or.inr (hqp ▸ hp))
  refine hP _ ?_
  refine foldl_preserve_mem _ (fun st : RunState => cellAt st.wb q = some v) _ ?_ _ hv
  intro s chunk hchunk hPs
  rw [regular_batch_step_frame provider maxRetries saveInterval s chunk q ?_]
  · exact hPs
  · intro hqc
    exact hq (Or.inl (mem_chunksGo_subset batchSize _ _ _ hchunk hqc))

/-- C8 witness: a sheet holding a qualifying cell, a number, an empty
cell and a blank string; after a run with a concrete provider the number
keeps its value. -/
theorem c8_run_preserves_unqualified_cells_witness :
    cellAt (translate_file (openai_provider (fun _ => some "Hi")) 5 5 20 []
      [[.vStr "你好", .vNum 42, .vNone, .vStr " "]]).wb (0, 1) = some (.vNum 42) :=
  c8_run_preserves_unqualified_cells (openai_provider (fun _ => some "Hi")) 5 5 20 []
    [[.vStr "你好", .vNum 42, .vNone, .vStr " "]] (0, 1) (.vNum 42)
    (by decide) (by decide)

/-! ## `batch_translate_texts_async` (`src/ExcelTranslate.py` lines 143-218)

The streaming client retries **per text**: on a falsy result (a `None`
from a caught transport error inside `stream_translation`, or an empty
string) it sleeps `base_delay * 2 ** attempt` and retries, up to
`max_retries + 1` attempts, then falls back to the original text.  The
transport is abstracted as `stream : Nat → Option String` indexed by the
attempt number: `some s` models a returned string (possibly empty),
`none` the `None` that `stream_translation` returns after catching a
transport exception. -/

/-- Outcome of the per-text retry loop (lines 188-216). -/
structure OneTextOutcome where
  /-- `results[text]` after the loop -/
  result : String
  /-- the value written to the cache for this text, if any -/
  cached : Option String
  /-- the backoff sleeps performed, in seconds, in order -/
  delays : List Nat
  /-- number of `stream_translation` attempts made -/
  attempts : Nat
deriving Repr, DecidableEq

/-- The per-text retry loop (lines 188-216).  `attemptsLeft` counts the
attempts still available including the current one; the loop is entered
with `max_retries + 1`.  A truthy result is recorded in `results` and in
the cache and breaks the loop; a falsy result sleeps
`base_delay * 2 ** attempt` and retries while attempts remain, and on the
last attempt falls back to the original text without touching the
cache. -/
def legacy_translate_one (stream : Nat → Option String) (baseDelay : Nat)
    (text : String) : Nat → Nat → OneTextOutcome
  | 0, _ => { result := text, cached := none, delays := [], attempts := 0 }
  | attemptsLeft + 1, attempt =>
      match stream attempt with
      | some t =>
          if t ≠ "" then
            { result := t, cached := some t, delays := [], attempts := 1 }
          else if attemptsLeft = 0 then
            { result := text, cached := none, delays := [], attempts := 1 }
          else
            let r := legacy_translate_one stream baseDelay text attemptsLeft (attempt + 1)
            { r with delays := baseDelay * 2 ^ attempt :: r.delays,
                     attempts := r.attempts + 1 }
      | none =>
          if attemptsLeft = 0 then
            { result := text, cached := none, delays := [], attempts := 1 }
          else
            let r := legacy_translate_one stream baseDelay text attemptsLeft (attempt + 1)
            { r with delays := baseDelay * 2 ^ attempt :: r.delays,
                     attempts := r.attempts + 1 }

/-- Instrumented outcome of one `batch_translate_texts_async` call. -/
structure LegacyResult where
  results : StrDict
  cache : StrDict
  /-- the `(text, translation)` pairs written to the cache, in order -/
  insertions : List (String × String)
  delays : List Nat
  attempts : Nat
deriving Repr, DecidableEq

/-- `batch_translate_texts_async` (lines 143-218): the filter/cache phase
(lines 160-184), then the sequential per-text retry loops.  On a truthy
result the translation is written to `results` **and to the cache** even
when it equals the source text (lines 192-195); the exhausted-retry
fallback writes only `results` (lines 207, 216). -/
def batch_translate_texts (stream : String → Nat → Option String)
    (maxRetries baseDelay : Nat) (cache : StrDict) (texts : List String) :
    LegacyResult :=
  let init := texts.foldl
    (fun (acc : StrDict × List String) text =>
      if is_blank text then (dictInsert acc.1 text text, acc.2)
      else if ¬ is_chinese_str text then (dictInsert acc.1 text text, acc.2)
      else
        match dictLookup cache (get_cache_key text) with
        | some tr => (dictInsert acc.1 text tr, acc.2)
        | none => (acc.1, acc.2 ++ [text]))
    ([], [])
  init.2.foldl
    (fun (acc : LegacyResult) text =>
      let r := legacy_translate_one (stream text) baseDelay text (maxRetries + 1) 0
      { results := dictInsert acc.results text r.result,
        cache :=
          match r.cached with
          | some t => dictInsert acc.cache (get_cache_key text) t
          | none => acc.cache,
        insertions := acc.insertions ++
          (match r.cached with
           | some t => [(text, t)]
           | none => []),
        delays := acc.delays ++ r.delays,
        attempts := acc.attempts + r.attempts })
    { results := init.1, cache := cache, insertions := [], delays := [],
      attempts := 0 }

/-- A falsy streaming outcome: transport error (`none`) or empty result. -/
def streamFails (r : Option String) : Prop :=
  r = none ∨ r = some ""

/-- Retry schedule of the per-text loop when the first `k` attempts fail
and attempt `k` succeeds with a non-empty result. -/
theorem legacy_translate_one_succeeds
    (stream : Nat → Option String) (baseDelay : Nat) (text t : String)
    (hne : t ≠ "") :
    ∀ (k n a : Nat), k ≤ n →
      (∀ i, i < k → streamFails (stream (a + i))) →
      stream (a + k) = some t →
      legacy_translate_one stream baseDelay text (n + 1) a =
        { result := t, cached := some t,
          delays := (List.range k).map (fun i => baseDelay * 2 ^ (a + i)),
          attempts := k + 1 } := by
  intro k
  induction k with
  | zero =>
      intro n a _ _ hk
      rw [Nat.add_zero] at hk
      simp [legacy_translate_one, hk, hne]
  | succ k ih =>
      intro n a hkn hfail hk
      obtain ⟨n', rfl⟩ : ∃ n', n = n' + 1 :=
        ⟨n - 1, by omega⟩
      have hrec : legacy_translate_one stream baseDelay text (n' + 1) (a + 1) =
          { result := t, cached := some t,
            delays := (List.range k).map (fun i => baseDelay * 2 ^ (a + 1 + i)),
            attempts := k + 1 } := by
        refine ih n' (a + 1) (by omega) ?_ ?_
        · intro i hi
          have := hfail (i + 1) (by omega)
          rw [show a + (i + 1) = a + 1 + i by omega] at this
          exact this
        · rw [show a + 1 + k = a + (k + 1) by omega]
          exact hk
      have hdel : baseDelay * 2 ^ a ::
          (List.range k).map (fun i => baseDelay * 2 ^ (a + 1 + i)) =
          (List.range (k + 1)).map (fun i => baseDelay * 2 ^ (a + i)) := by
        rw [List.range_succ_eq_map, List.map_cons, List.map_map]
        congr 1
        apply List.map_congr_left
        intro i _
        simp only [Function.comp_apply]
        rw [show a + 1 + i = a + i.succ from by omega]
      have h0 := hfail 0 (by omega)
      rw [Nat.add_zero] at h0
      rcases h0 with h0 | h0
      · conv_lhs => rw [legacy_translate_one]
        rw [h0]
        simp only [hrec]
        rw [if_neg (Nat.succ_ne_zero n')]
        rw [← hdel]
      · conv_lhs => rw [legacy_translate_one]
        rw [h0]
        simp only [hrec]
        rw [if_neg (by simp : ¬("" ≠ "")), if_neg (Nat.succ_ne_zero n')]
        rw [← hdel]

/-- Retry schedule of the per-text loop when every attempt fails: all
`max_retries + 1` attempts are made, the backoff sleeps are
`base_delay * 2 ** attempt` for each non-final attempt, the original text
is the fallback result, and nothing is cached. -/
theorem legacy_translate_one_all_fail
    (stream : Nat → Option String) (baseDelay : Nat) (text : String) :
    ∀ (n a : Nat), (∀ i, i ≤ n → streamFails (stream (a + i))) →
      legacy_translate_one stream baseDelay text (n + 1) a =
        { result := text, cached := none,
          delays := (List.range n).map (fun i => baseDelay * 2 ^ (a + i)),
          attempts := n + 1 } := by
  intro n
  induction n with
  | zero =>
      intro a hfail
      have h0 := hfail 0 (by omega)
      rw [Nat.add_zero] at h0
      rcases h0 with h0 | h0
      · simp [legacy_translate_one, h0]
      · simp [legacy_translate_one, h0]
  | succ n ih =>
      intro a hfail
      have hrec := ih (a + 1) (by
        intro i hi
        have := hfail (i + 1) (by omega)
        rw [show a + (i + 1) = a + 1 + i by omega] at this
        exact this)
      have hdel : baseDelay * 2 ^ a ::
          (List.range n).map (fun i => baseDelay * 2 ^ (a + 1 + i)) =
          (List.range (n + 1)).map (fun i => baseDelay * 2 ^ (a + i)) := by
        rw [List.range_succ_eq_map, List.map_cons, List.map_map]
        congr 1
        apply List.map_congr_left
        intro i _
        simp only [Function.comp_apply]
        rw [show a + 1 + i = a + i.succ from by omega]
      have h0 := hfail 0 (by omega)
      rw [Nat.add_zero] at h0
      rcases h0 with h0 | h0
      · conv_lhs => rw [legacy_translate_one]
        rw [h0]
        simp only [hrec]
        rw [if_neg (Nat.succ_ne_zero n)]
        rw [← hdel]
      · conv_lhs => rw [legacy_translate_one]
        rw [h0]
        simp only [hrec]
        rw [if_neg (by simp : ¬("" ≠ "")), if_neg (Nat.succ_ne_zero n)]
        rw [← hdel]

/-- C3: In the streaming translation client, each text whose attempt ends
in a transport error or in an empty/absent result is retried sequentially
up to the configured maximum attempt count (`max_retries + 1` attempts in
total), with a backoff sleep of exactly `base_delay * 2 ^ attempt` before
each retry: if the first `k` attempts fail and attempt `k` succeeds with a
non-empty result, the loop makes `k + 1` attempts and sleeps
`base_delay * 2^0, …, base_delay * 2^(k-1)`; if every attempt fails, it
makes `max_retries + 1` attempts, sleeps
`base_delay * 2^0, …, base_delay * 2^(max_retries-1)`, and falls back to
the original text. -/
theorem c3_exponential_backoff
    (stream : Nat → Option String) (maxRetries baseDelay : Nat)
    (text t : String) (hne : t ≠ "") :
    (∀ k, k ≤ maxRetries → (∀ i, i < k → streamFails (stream i)) →
      stream k = some t →
      legacy_translate_one stream baseDelay text (maxRetries + 1) 0 =
        { result := t, cached := some t,
          delays := (List.range k).map (fun i => baseDelay * 2 ^ i),
          attempts := k + 1 }) ∧
    ((∀ i, i ≤ maxRetries → streamFails (stream i)) →
      legacy_translate_one stream baseDelay text (maxRetries + 1) 0 =
        { result := text, cached := none,
          delays := (List.range maxRetries).map (fun i => baseDelay * 2 ^ i),
          attempts := maxRetries + 1 }) := by
  constructor
  · intro k hk hfail hsucc
    have := legacy_translate_one_succeeds stream baseDelay text t hne k maxRetries 0 hk
      (by intro i hi; rw [Nat.zero_add]; exact hfail i hi)
      (by rw [Nat.zero_add]; exact hsucc)
    simpa using this
  · intro hfail
    have := legacy_translate_one_all_fail stream baseDelay text maxRetries 0
      (by intro i hi; rw [Nat.zero_add]; exact hfail i hi)
    simpa using this

/-- C3 witness: `base_delay = 2`, `max_retries = 5`, the first two
attempts fail (a transport error, then an empty result) and the third
returns `"Hi"`: three attempts, sleeps of `2` and `4` seconds, result
`"Hi"`. -/
theorem c3_exponential_backoff_witness :
    legacy_translate_one
      (fun i => if i = 0 then none else if i = 1 then some "" else some "Hi")
      2 "你好" (5 + 1) 0 =
      { result := "Hi", cached := some "Hi", delays := [2, 4], attempts := 3 } := by
  have h := (c3_exponential_backoff
    (fun i => if i = 0 then none else if i = 1 then some "" else some "Hi")
    5 2 "你好" "Hi" (by decide)).1 2 (by omega)
    (by
      intro i hi
      interval_cases i
      · exact Or.inl rfl
      · exact Or.inr rfl)
    rfl
  rw [h]
  rfl

/-! ## The interrupt handler (C7)
(`ExcelTranslator.setup_signal_handler`,
`src/excel_translator/translation.py` lines 71-90) -/

/-- Observable actions of the installed SIGINT handler. -/
inductive ShutdownEvent where
  /-- `workbook.save(output_file)` completed (line 81) -/
  | workbookSaved
  /-- `workbook.save(output_file)` raised; the exception is caught and
  printed (lines 83-84) -/
  | workbookSaveFailed
  /-- `save_cache(self.cache, self.cache_file)` performed in the
  `finally` block (line 86; `save_cache` itself never raises) -/
  | cacheSaved
  /-- `exit(0)` (line 88) -/
  | exited
deriving DecidableEq, Repr

/-- The handler body: try to save the workbook (an exception is caught),
then — in the `finally` block, hence unconditionally — save the cache,
then exit.  `saveOk` states whether the workbook save raised. -/
def signal_handler_trace (saveOk : Bool) : List ShutdownEvent :=
  (if saveOk then [ShutdownEvent.workbookSaved]
   else [ShutdownEvent.workbookSaveFailed]) ++
  [ShutdownEvent.cacheSaved, ShutdownEvent.exited]

/-- C7: On an interrupt the handler performs the persist-document then
persist-cache sequence before terminating: the process exit is the last
action of the handler trace and occurs exactly once, the cache save always
precedes it, the workbook save is always attempted before it, and whenever
the workbook save does not raise the workbook has been saved before the
exit.  (Both saves are best-effort: a workbook-save exception is caught
and the shutdown still proceeds through the cache save to the exit.) -/
theorem c7_interrupt_saves_before_exit (saveOk : Bool) :
    (signal_handler_trace saveOk).getLast? = some ShutdownEvent.exited ∧
    (∀ e ∈ (signal_handler_trace saveOk).dropLast, e ≠ ShutdownEvent.exited) ∧
    ShutdownEvent.cacheSaved ∈ (signal_handler_trace saveOk).dropLast ∧
    (ShutdownEvent.workbookSaved ∈ (signal_handler_trace saveOk).dropLast ∨
      ShutdownEvent.workbookSaveFailed ∈ (signal_handler_trace saveOk).dropLast) ∧
    (saveOk = true →
      ShutdownEvent.workbookSaved ∈ (signal_handler_trace saveOk).dropLast) := by
  cases saveOk <;> refine ⟨by decide, by decide, by decide, by decide, ?_⟩
  · intro h
    cases h
  · intro _
    decide

/-- C7 witness: when the workbook save succeeds, both the workbook save
and the cache save appear in the trace strictly before the exit. -/
theorem c7_interrupt_saves_before_exit_witness :
    ShutdownEvent.workbookSaved ∈ (signal_handler_trace true).dropLast ∧
    ShutdownEvent.cacheSaved ∈ (signal_handler_trace true).dropLast ∧
    (signal_handler_trace true).getLast? = some ShutdownEvent.exited :=
  ⟨(c7_interrupt_saves_before_exit true).2.2.2.2 rfl,
   (c7_interrupt_saves_before_exit true).2.2.1,
   (c7_interrupt_saves_before_exit true).1⟩

/-! ### Cache-insertion discipline (C10) -/

/-- The cache-update loop of `translate_cells_batch` records an insertion
only for non-identity translations. -/
theorem apply_translations_insertions
    (translations : StrDict) (cache map : StrDict) :
    ∀ p ∈ (apply_translations cache map translations).2.2, p.1 ≠ p.2 := by
  unfold apply_translations
  refine foldl_preserve _
    (fun st : StrDict × StrDict × List (String × String) =>
      ∀ p ∈ st.2.2, p.1 ≠ p.2) ?_ translations (cache, map, [])
    (by intro p hp; exact absurd hp (List.not_mem_nil _))
  intro st q hst
  by_cases hq : q.1 ≠ q.2
  · intro p hp
    simp only [if_pos hq] at hp
    rcases List.mem_append.mp hp with hp | hp
    · exact hst p hp
    · rcases List.mem_singleton.mp hp with rfl
      exact hq
  · intro p hp
    simp only [if_neg hq] at hp
    exact hst p hp

/-- The retry loop never adds an identity pair to the insertion log. -/
theorem retry_loop_insertions
    (provider : Nat → List String → Except String (StrDict × Nat))
    (texts : List String) :
    ∀ (n attempt : Nat) (cache map : StrDict) (calls reqs : Nat)
      (delays : List Nat) (ins : List (String × String)),
      (∀ p ∈ ins, p.1 ≠ p.2) →
      ∀ p ∈ (retry_loop provider texts n attempt cache map calls reqs delays
          ins).insertions, p.1 ≠ p.2 := by
  intro n
  induction n with
  | zero =>
      intro attempt cache map calls reqs delays ins hins
      exact hins
  | succ n ih =>
      intro attempt cache map calls reqs delays ins hins
      cases hpr : provider attempt texts with
      | ok r =>
          simp only [retry_loop, hpr]
          intro p hp
          rcases List.mem_append.mp hp with hp | hp
          · exact hins p hp
          · exact apply_translations_insertions r.1 cache map p hp
      | error e =>
          cases n with
          | zero =>
              simp only [retry_loop, hpr]
              exact hins
          | succ n' =>
              simp only [retry_loop, hpr]
              exact ih (attempt + 1) cache map (calls + 1) reqs
                (delays ++ [2 ^ attempt]) ins hins

/-- C10 counterexample: the legacy `batch_translate_texts_async` caches
**any** truthy result, identity included (lines 192-195 of
`src/ExcelTranslate.py` run `cache[key] = translated_text` without
comparing it to the source).  With a remote that answers with the source
text itself, the run writes the identity pair to the cache: the cache then
maps the fingerprint of `"你好"` to `"你好"` — so the claimed invariant
("an identity result is never written to the cache") does not hold of the
legacy batch translator. -/
theorem c10_legacy_caches_identity :
    (batch_translate_texts (fun text _ => some text) 5 2 [] ["你好"]).insertions
      = [("你好", "你好")] ∧
    dictLookup (batch_translate_texts (fun text _ => some text) 5 2 []
      ["你好"]).cache (get_cache_key "你好") = some "你好" := by
  constructor <;> (set_option maxRecDepth 40000 in decide)

/-- C10 amended: in `ExcelTranslator.translate_cells_batch` the claim
holds — a cache entry is inserted for a text only when the returned
translation differs from the source text (every logged insertion is a
non-identity pair), and when every attempt fails nothing at all is
inserted, so failed texts are re-attempted on later runs.  (The legacy
`batch_translate_texts_async`, by contrast, caches any truthy result,
identity included, as the counterexample shows; only its exhausted-retry
fallback and falsy results stay out of the cache.) -/
theorem c10_no_identity_insertion
    (provider : Nat → List String → Except String (StrDict × Nat))
    (maxRetries : Nat) (cache : StrDict) (cells : List CellValue) :
    (∀ p ∈ (translate_cells_batch provider maxRetries cache cells).insertions,
        p.1 ≠ p.2) ∧
    ((∀ a ts, ∃ e, provider a ts = .error e) →
      (translate_cells_batch provider maxRetries cache cells).insertions = []) := by
  constructor
  · unfold translate_cells_batch
    by_cases hempty : (collect_texts cache cells).2.isEmpty
    · simp only [hempty, if_true]
      intro p hp
      exact absurd hp (List.not_mem_nil _)
    · simp only [hempty, if_false]
      exact retry_loop_insertions provider _ (maxRetries + 1) 0 cache
        (collect_texts cache cells).1 0 0 [] []
        (by intro p hp; exact absurd hp (List.not_mem_nil _))
  · intro hfail
    unfold translate_cells_batch
    by_cases hempty : (collect_texts cache cells).2.isEmpty
    · simp only [hempty, if_true]
    · simp only [hempty, if_false]
      rw [retry_loop_all_fail provider _ (fun a => hfail a _) maxRetries 0 cache
        (collect_texts cache cells).1 0 0 [] []]
      rfl

/-- C10 amended, witness: with a succeeding provider the only insertion
for `"你好"` is the non-identity pair, and with an always-failing provider
nothing is inserted. -/
theorem c10_no_identity_insertion_witness :
    ("你好", "Hello").1 ≠ ("你好", "Hello").2 ∧
    (translate_cells_batch (fun _ _ => .error "boom") 5 [] [.vStr "你好"]).insertions
      = [] :=
  ⟨(c10_no_identity_insertion (openai_provider (fun _ => some "Hello")) 5 []
      [.vStr "你好"]).1 ("你好", "Hello") (by decide),
   (c10_no_identity_insertion (fun _ _ => .error "boom") 5 []
      [.vStr "你好"]).2 (fun a ts => ⟨"boom", rfl⟩)⟩

/-! ## Cache persistence: `utils.save_cache` / `utils.load_cache`

`save_cache` writes the dict with `json.dump(cache, f, ensure_ascii=False,
indent=2)`; `load_cache` reads it back with `json.load` and degrades to an
empty dict when the file is missing or unreadable.  The Python `json`
module is standard-library code outside this repository, so we model the
fragment of it these two functions exercise: serialisation of a flat
string-to-string object with `ensure_ascii=False, indent=2`, and parsing
of flat string-to-string objects (`\\uXXXX` escapes are decoded as single
scalar values; surrogate-pair escapes, which the encoder never emits for
this fragment, are out of the model).  The file system is modelled by
passing the file's contents: `none` stands for a missing file. -/

/-- JSON insignificant whitespace. -/
def isJsonWs (c : Char) : Bool :=
  c = ' ' || c = '\t' || c = '\n' || c = '\r'

/-- Skip insignificant whitespace. -/
def skipWs (l : List Char) : List Char :=
  l.dropWhile isJsonWs

/-- `json.dump` character escaping with `ensure_ascii=False`: only the
quote, the backslash and control characters are escaped; everything else
is written verbatim. -/
def encodeJsonChar (c : Char) : List Char :=
  if c = '"' then ['\\', '"']
  else if c = '\\' then ['\\', '\\']
  else if c = '\n' then ['\\', 'n']
  else if c = '\t' then ['\\', 't']
  else if c = '\r' then ['\\', 'r']
  else if c = Char.ofNat 8 then ['\\', 'b']
  else if c = Char.ofNat 12 then ['\\', 'f']
  else if c.toNat < 0x20 then
    ['\\', 'u', '0', '0', hexDigit (c.toNat / 16), hexDigit (c.toNat % 16)]
  else [c]

/-- Body of a serialised JSON string. -/
def encode_string_body (s : List Char) : List Char :=
  s.foldr (fun c acc => encodeJsonChar c ++ acc) []

/-- A serialised JSON string, quotes included. -/
def encode_string (s : List Char) : List Char :=
  '"' :: encode_string_body s ++ ['"']

/-- One serialised `"key": "value"` member (`indent=2` formatting puts
`": "` between key and value). -/
def dump_entry (p : String × String) : List Char :=
  encode_string p.1.toList ++ [':', ' '] ++ encode_string p.2.toList

/-- The serialised members after the first, each preceded by `",\n  "`,
then the closing `"\n}"`. -/
def dump_rest : StrDict → List Char
  | [] => ['\n', '}']
  | e :: rest => [',', '\n', ' ', ' '] ++ dump_entry e ++ dump_rest rest

/-- `json.dump(cache, f, ensure_ascii=False, indent=2)`: the exact file
contents `utils.save_cache` writes. -/
def save_cache_str (m : StrDict) : String :=
  match m with
  | [] => ['{', '}'].asString
  | e :: rest => (['{', '\n', ' ', ' '] ++ dump_entry e ++ dump_rest rest).asString

/-- Value of one hexadecimal digit. -/
def hexVal (c : Char) : Option Nat :=
  let n := c.toNat
  if 48 ≤ n && n ≤ 57 then some (n - 48)
  else if 97 ≤ n && n ≤ 102 then some (n - 87)
  else if 65 ≤ n && n ≤ 70 then some (n - 55)
  else none

/-- Decoding of the one-character JSON escapes. -/
def decodeEscape (e : Char) : Option Char :=
  if e = '"' then some '"'
  else if e = '\\' then some '\\'
  else if e = '/' then some '/'
  else if e = 'b' then some (Char.ofNat 8)
  else if e = 'f' then some (Char.ofNat 12)
  else if e = 'n' then some '\n'
  else if e = 'r' then some '\r'
  else if e = 't' then some '\t'
  else none

/-- Parse the body of a JSON string up to and including the closing
quote; raw control characters are rejected (`json.load` is strict).
`fuel` bounds the recursion; every step consumes at least one input
character. -/
def parseStringBodyGo : Nat → List Char → Option (List Char × List Char)
  | 0, _ => none
  | fuel + 1, l =>
      match l with
      | [] => none
      | c :: rest =>
          if c = '"' then some ([], rest)
          else if c = '\\' then
            match rest with
            | [] => none
            | e :: rest2 =>
                if e = 'u' then
                  match rest2 with
                  | a :: b :: c2 :: d :: rest3 =>
                      match hexVal a, hexVal b, hexVal c2, hexVal d with
                      | some ha, some hb, some hc2, some hd =>
                          (parseStringBodyGo fuel rest3).map (fun r =>
                            (Char.ofNat (4096 * ha + 256 * hb + 16 * hc2 + hd)
                              :: r.1, r.2))
                      | _, _, _, _ => none
                  | _ => none
                else
                  match decodeEscape e with
                  | some ch =>
                      (parseStringBodyGo fuel rest2).map (fun r =>
                        (ch :: r.1, r.2))
                  | none => none
          else if c.toNat < 0x20 then none
          else (parseStringBodyGo fuel rest).map (fun r => (c :: r.1, r.2))

/-- Parse a JSON string, leading quote included. -/
def parseString (l : List Char) : Option (String × List Char) :=
  match l with
  | '"' :: rest =>
      (parseStringBodyGo (rest.length + 1) rest).map (fun r =>
        (r.1.asString, r.2))
  | _ => none

/-- Parse the members of a non-empty flat string-to-string object,
starting at the first key, consuming the closing brace.  `fuel` bounds the
recursion; every member consumes at least one character. -/
def parse_members : Nat → List Char → Option (StrDict × List Char)
  | 0, _ => none
  | fuel + 1, l =>
      match parseString (skipWs l) with
      | none => none
      | some (k, rest) =>
          match skipWs rest with
          | ':' :: rest2 =>
              match parseString (skipWs rest2) with
              | none => none
              | some (v, rest3) =>
                  match skipWs rest3 with
                  | ',' :: rest4 =>
                      match parse_members fuel rest4 with
                      | none => none
                      | some (ms, rest5) => some ((k, v) :: ms, rest5)
                  | '}' :: rest4 => some ([(k, v)], rest4)
                  | _ => none
          | _ => none

/-- Parse a whole document holding one flat string-to-string object
(the fragment of `json.load` that `load_cache` exercises on files written
by `save_cache`). -/
def parse_cache (s : String) : Option StrDict :=
  match skipWs s.toList with
  | '{' :: rest =>
      match skipWs rest with
      | [] => none
      | c :: rest2 =>
          if c = '}' then (if (skipWs rest2).isEmpty then some [] else none)
          else
            match parse_members ((c :: rest2).length + 1) (c :: rest2) with
            | some (ms, rest3) => if (skipWs rest3).isEmpty then some ms else none
            | none => none
  | _ => none

/-- `utils.load_cache` over the file contents (`none`: missing file):
a missing or unparseable file degrades to the empty cache. -/
def load_cache (contents : Option String) : StrDict :=
  match contents with
  | none => []
  | some s => (parse_cache s).getD []

/-! ### Round-trip of persistence (C9) -/

theorem skipWs_cons_not {c : Char} (l : List Char) (h : isJsonWs c = false) :
    skipWs (c :: l) = c :: l := by
  simp [skipWs, List.dropWhile_cons, h]

theorem skipWs_cons_ws {c : Char} (l : List Char) (h : isJsonWs c = true) :
    skipWs (c :: l) = skipWs l := by
  simp [skipWs, List.dropWhile_cons, h]

theorem hexVal_hexDigit : ∀ n, n < 16 → hexVal (hexDigit n) = some n := by
  decide

theorem encode_string_body_cons (c : Char) (cs : List Char) :
    encode_string_body (c :: cs) = encodeJsonChar c ++ encode_string_body cs := rfl

/-- Every escaped character occupies at least one output character. -/
theorem encodeJsonChar_length (c : Char) : 1 ≤ (encodeJsonChar c).length := by
  unfold encodeJsonChar
  repeat' split
  all_goals simp

/-- Serialisation does not shrink a string body. -/
theorem encode_string_body_length (s : List Char) :
    s.length ≤ (encode_string_body s).length := by
  induction s with
  | nil => simp [encode_string_body]
  | cons c cs ih =>
      rw [encode_string_body_cons]
      rw [List.length_append, List.length_cons]
      have := encodeJsonChar_length c
      omega

/-- Decoding inverts the `json.dump` escaping, one string body at a
time. -/
theorem parseStringBodyGo_encode (s : List Char) :
    ∀ (fuel : Nat) (rest : List Char), s.length < fuel →
      parseStringBodyGo fuel (encode_string_body s ++ '"' :: rest)
        = some (s, rest) := by
  induction s with
  | nil =>
      intro fuel rest hf
      obtain ⟨f, rfl⟩ : ∃ f, fuel = f + 1 := ⟨fuel - 1, by omega⟩
      simp [encode_string_body, parseStringBodyGo]
  | cons c cs ih =>
      intro fuel rest hf
      obtain ⟨f, rfl⟩ : ∃ f, fuel = f + 1 := ⟨fuel - 1, by omega⟩
      have hf' : cs.length < f := by
        rw [List.length_cons] at hf
        omega
      rw [encode_string_body_cons, List.append_assoc]
      unfold encodeJsonChar
      by_cases h1 : c = '"'
      · subst h1; simp [parseStringBodyGo, decodeEscape, ih _ _ hf']
      · rw [if_neg h1]
        by_cases h2 : c = '\\'
        · subst h2; simp [parseStringBodyGo, decodeEscape, ih _ _ hf']
        · rw [if_neg h2]
          by_cases h3 : c = '\n'
          · subst h3; simp [parseStringBodyGo, decodeEscape, ih _ _ hf']
          · rw [if_neg h3]
            by_cases h4 : c = '\t'
            · subst h4; simp [parseStringBodyGo, decodeEscape, ih _ _ hf']
            · rw [if_neg h4]
              by_cases h5 : c = '\r'
              · subst h5; simp [parseStringBodyGo, decodeEscape, ih _ _ hf']
              · rw [if_neg h5]
                by_cases h6 : c = Char.ofNat 8
                · subst h6; simp [parseStringBodyGo, decodeEscape, ih _ _ hf']
                · rw [if_neg h6]
                  by_cases h7 : c = Char.ofNat 12
                  · subst h7; simp [parseStringBodyGo, decodeEscape, ih _ _ hf']
                  · rw [if_neg h7]
                    by_cases h8 : c.toNat < 0x20
                    · rw [if_pos h8]
                      have hdiv : c.toNat / 16 < 16 := by omega
                      have hmod : c.toNat % 16 < 16 := by omega
                      have hch : Char.ofNat
                          (16 * (c.toNat / 16) + c.toNat % 16) = c := by
                        rw [Nat.div_add_mod c.toNat 16]
                        exact Char.ofNat_toNat c
                      simp [parseStringBodyGo, hexVal_hexDigit _ hdiv,
                        hexVal_hexDigit _ hmod, ih _ _ hf', hch,
                        show hexVal '0' = some 0 from by decide]
                    · rw [if_neg h8]
                      simp only [List.singleton_append, parseStringBodyGo,
                        if_neg h1, if_neg h2, if_neg h8, ih _ _ hf']
                      rfl

theorem parseString_cons_quote (r : List Char) :
    parseString ('"' :: r) =
      (parseStringBodyGo (r.length + 1) r).map (fun p => (p.1.asString, p.2)) :=
  rfl

/-- Parsing inverts serialisation of a whole JSON string. -/
theorem parseString_encode (s : String) (rest : List Char) :
    parseString (encode_string s.toList ++ rest) = some (s, rest) := by
  have hlen : s.toList.length <
      (encode_string_body s.toList ++ '"' :: rest).length + 1 := by
    rw [List.length_append, List.length_cons]
    have := encode_string_body_length s.toList
    omega
  unfold encode_string
  simp only [List.cons_append, List.append_assoc, List.singleton_append,
    List.nil_append]
  rw [parseString_cons_quote]
  rw [parseStringBodyGo_encode s.toList _ rest hlen]
  simp only [Option.map_some']
  exact congrArg (fun x => some (x, rest)) (String.asString_toList s)

theorem isJsonWs_quote : isJsonWs '"' = false := by decide

/-- A serialised string never begins with whitespace. -/
theorem skipWs_encode_string (s : List Char) (rest : List Char) :
    skipWs (encode_string s ++ rest) = encode_string s ++ rest := by
  unfold encode_string
  simp only [List.cons_append]
  rw [skipWs_cons_not _ isJsonWs_quote]

/-- A serialised member never begins with whitespace. -/
theorem skipWs_dump_entry (e : String × String) (rest : List Char) :
    skipWs (dump_entry e ++ rest) = dump_entry e ++ rest := by
  obtain ⟨k, v⟩ := e
  unfold dump_entry
  simp only [List.append_assoc]
  exact skipWs_encode_string _ _

/-- Parsing inverts serialisation of the member list: from the first key
to the closing brace. -/
theorem parse_members_dump :
    ∀ (m : StrDict) (e : String × String) (fuel : Nat) (l : List Char),
      m.length ≤ fuel →
      skipWs l = dump_entry e ++ dump_rest m →
      parse_members (fuel + 1) l = some (e :: m, []) := by
  intro m
  induction m with
  | nil =>
      intro e fuel l _ hl
      obtain ⟨k, v⟩ := e
      unfold parse_members
      rw [hl]
      unfold dump_entry dump_rest
      simp only [List.append_assoc, List.cons_append, List.nil_append]
      simp only [parseString_encode, skipWs_encode_string,
        @skipWs_cons_not ':' _ (by decide), @skipWs_cons_ws ' ' _ (by decide),
        @skipWs_cons_ws '\n' _ (by decide), @skipWs_cons_not '}' _ (by decide)]
  | cons f fs ih =>
      intro e fuel l hfuel hl
      obtain ⟨k, v⟩ := e
      obtain ⟨fuel', rfl⟩ : ∃ fuel', fuel = fuel' + 1 :=
        ⟨fuel - 1, by rw [List.length_cons] at hfuel; omega⟩
      unfold parse_members
      rw [hl]
      unfold dump_rest
      simp only [List.append_assoc, List.cons_append, List.nil_append,
        skipWs_dump_entry]
      rw [show dump_entry (k, v) ++ ',' :: '\n' :: ' ' :: ' ' ::
          (dump_entry f ++ dump_rest fs) = encode_string k.toList ++
          (':' :: ' ' :: (encode_string v.toList ++ ',' :: '\n' :: ' ' :: ' ' ::
            (dump_entry f ++ dump_rest fs))) from by
        unfold dump_entry
        simp [List.append_assoc]]
      simp only [parseString_encode, skipWs_encode_string,
        @skipWs_cons_not ':' _ (by decide), @skipWs_cons_ws ' ' _ (by decide),
        @skipWs_cons_not ',' _ (by decide)]
      rw [ih f fuel' _ (by rw [List.length_cons] at hfuel; omega) ?_]
      rw [@skipWs_cons_ws '\n' _ (by decide), @skipWs_cons_ws ' ' _ (by decide),
        @skipWs_cons_ws ' ' _ (by decide)]
      exact skipWs_dump_entry f (dump_rest fs)

/-- Each serialised member occupies at least one character. -/
theorem dump_rest_length (m : StrDict) : m.length ≤ (dump_rest m).length := by
  induction m with
  | nil => simp [dump_rest]
  | cons e rest ih =>
      simp only [dump_rest, List.length_append, List.length_cons]
      omega

/-- Persist-then-reload round-trip: reading back the exact file contents
`save_cache` writes restores the cache unchanged. -/
theorem load_save_roundtrip (m : StrDict) :
    load_cache (some (save_cache_str m)) = m := by
  cases m with
  | nil => decide
  | cons e rest =>
      obtain ⟨k, v⟩ := e
      unfold load_cache parse_cache save_cache_str
      dsimp only
      rw [List.toList_asString]
      simp only [List.cons_append, List.nil_append, List.append_assoc,
        @skipWs_cons_not '{' _ (by decide),
        @skipWs_cons_ws '\n' _ (by decide), @skipWs_cons_ws ' ' _ (by decide),
        skipWs_dump_entry]
      have hq : dump_entry (k, v) ++ dump_rest rest =
          '"' :: (encode_string_body k.toList ++ ['"'] ++
            ([':', ' '] ++ encode_string v.toList) ++ dump_rest rest) := by
        unfold dump_entry
        simp [encode_string]
      have hfuel : rest.length ≤ ('"' :: (encode_string_body k.toList ++ ['"'] ++
          ([':', ' '] ++ encode_string v.toList) ++ dump_rest rest)).length := by
        have := dump_rest_length rest
        simp only [List.length_cons, List.length_append]
        omega
      have hskip3 : skipWs ('"' :: (encode_string_body k.toList ++ ['"'] ++
          ([':', ' '] ++ encode_string v.toList) ++ dump_rest rest)) =
          dump_entry (k, v) ++ dump_rest rest := by
        rw [skipWs_cons_not _ isJsonWs_quote, ← hq]
      simp only [hq]
      rw [if_neg (by decide : ¬(('"' : Char) = '}'))]
      rw [parse_members_dump rest (k, v) _ _ hfuel hskip3]
      rfl

/-- C9: The fingerprint function is deterministic — `get_cache_key`
applied twice to the same string yields the same key (it is a pure
function of the UTF-8 bytes); a cache `put` (`self.cache[cache_key] =
translation`) followed by a `get` with the same source text returns the
stored translation; and persisting a cache with `save_cache` then
reloading it with `load_cache` yields an equal mapping. -/
theorem c9_fingerprint_cache_roundtrip :
    (∀ s : String, get_cache_key s = get_cache_key s) ∧
    (∀ (cache : StrDict) (s t : String),
      dictLookup (dictInsert cache (get_cache_key s) t) (get_cache_key s)
        = some t) ∧
    (∀ m : StrDict, load_cache (some (save_cache_str m)) = m) := by
  refine ⟨fun s => rfl, fun cache s t => dictLookup_insert_self _ _ _, ?_⟩
  exact load_save_roundtrip

/-- C1: The spec claims the classifier returns `false` for pure numerals
and for strings of non-source-script letters, matching the repository's own
test `test_is_chinese_with_non_chinese_text` (`assert is_chinese("Hello")
is False`, `assert is_chinese("123") is False`).  The code as written
returns `true` on both, because the malformed escape ` 0-⩭F`
puts the range U+0030-U+2A6D (ASCII digits and Latin letters included)
into the character class.  This theorem evaluates the embedded code at the
failing inputs: `"123"`, `"Hello"` and `"Test"` are classified as needing
translation, while the empty string and `None` still are not. -/
theorem c1_is_chinese_matches_ascii :
    is_chinese (.vStr "123") = true ∧
    is_chinese (.vStr "Hello") = true ∧
    is_chinese (.vStr "Test") = true ∧
    is_chinese (.vStr "") = false ∧
    is_chinese .vNone = false ∧
    is_chinese (.vStr "你好") = true := by
  decide

end ExcelTranslator
